import Mathlib

/-!
Client manager of go-chassis (`core/client/client_manager.go`).

A shallow embedding of `CreateClient` and `GetClient` and of the package-level
client cache, followed by theorems about them.

Modelling conventions.

* A Go `string` is a Lean `String`.  The only byte-level operation of the file is
  `strings.Split(_, ",")`; the comma is a one-byte ASCII character, so splitting the
  characters of a well-formed UTF-8 string at `','` yields the same pieces.
* A Go `map[string]V` is a function `String → Option V` (`none` = key absent).  A map
  is a reference type in Go: the cache `clients` maps a protocol to a *reference* to a
  service map, and the service map itself lives in a heap indexed by references.
* Collaborators of other packages (`GetClientNewFunc`, `GetTLSConfigByService`,
  `IsSSLConfigNotExist`, the global configuration, `common.Consumer`) are fields of an
  environment `Env`.  Every call into a collaborator and every logger call is recorded
  as an `Event` in a trace, so that "is invoked exactly once" can be stated.
* A factory may hand out a new instance on every call: it receives, besides its
  `Options`, the history of events that precede the call.
* `sync.RWMutex` sections are atomic steps of the thread machine `Thread.step`; no lock is
  ever held across two steps, so the locks themselves carry no state.
* The one panic of the file itself is modelled: the nil dereference of `sslConfig` on
  lines 51-52 when the resolver returns neither an error nor an `SSLConfig`.  Panics
  inside collaborators (a nil logger, a nil global configuration, a panicking
  constructor) are outside the model.
-/

namespace Chassis

/-! ## Data model -/

/-- Value of the Go interface type `ProtocolClient`: the nil interface, or a reference to
an instance (instances are identified by their address). -/
inductive ProtocolClient where
  | nil
  | ref (addr : Nat)
deriving DecidableEq, Repr

/-- A non-nil Go `error` value. The Go type `error` itself is `Option GoError`. -/
structure GoError where
  msg : String
deriving DecidableEq, Repr

/-- Go `map[string]V`. -/
abbrev GoMap (V : Type) := String → Option V

/-- Result of `make(map[string]V)`. -/
def GoMap.empty {V : Type} : GoMap V := fun _ => none

/-- Assignment `m[k] = v`. -/
def GoMap.set {V : Type} (m : GoMap V) (k : String) (v : V) : GoMap V :=
  fun x => if x = k then some v else m x

/-- The field of `model.Protocol` that the client manager reads. -/
structure Protocol where
  Failure : String
deriving DecidableEq, Repr

/-- The fields of the `SSLConfig` that `CreateClient` reads (for its log line). -/
structure SSLConfig where
  VerifyPeer : Bool
  CipherPlugin : String
deriving DecidableEq, Repr

/-- Return triple `(*tls.Config, *SSLConfig, error)` of `GetTLSConfigByService`.
A `*tls.Config` is `none` (nil) or the address of a configuration. -/
structure TLSResult where
  tlsConfig : Option Nat
  sslConfig : Option SSLConfig
  err : Option GoError
deriving DecidableEq, Repr

/-- Constant `DefaultPoolSize` (line 22). -/
def DefaultPoolSize : Int := 50

/-- Type `Options` (lines 25-30). `PoolTTL` is a `time.Duration`, an integer number of
nanoseconds. -/
structure Options where
  PoolSize : Int
  PoolTTL : Int
  TLSConfig : Option Nat
  Failure : GoMap Bool

/-- Observable actions of the client manager: calls into collaborators and log lines. -/
inductive Event where
  | getClientNewFunc (protocol : String)
  | getTLSConfigByService (service protocol role : String)
  | newClient (protocol : String) (o : Options)
  | logError (msg : String) (err : GoError)
  | logWarn (msg : String)
  | logInfo (msg : String)

/-- A registered constructor `func(Options) ProtocolClient`; the second argument is the
history of events before the call. -/
abbrev NewFunc := Options → List Event → ProtocolClient

/-- Collaborators of the client manager.
`GetClientNewFunc p = none` stands for a non-nil error of the registry lookup.
`Protocols p` is `config.GlobalDefinition.Cse.Protocols[p]`, the zero value when `p` is
not configured. -/
structure Env where
  GetClientNewFunc : String → Option NewFunc
  GetTLSConfigByService : String → String → String → TLSResult
  IsSSLConfigNotExist : GoError → Bool
  Protocols : String → Protocol
  Consumer : String

/-- What a call does: it returns `(client, error)`, or it panics (nil dereference). -/
inductive Outcome where
  | ret (c : ProtocolClient) (err : Option GoError)
  | panic
deriving DecidableEq, Repr

/-! ## `strings.Split` and the failure map -/

/-- Pieces of a character list between occurrences of `sep`. -/
def splitChars (sep : Char) : List Char → List (List Char)
  | [] => [[]]
  | c :: cs =>
    if c = sep then [] :: splitChars sep cs
    else
      match splitChars sep cs with
      | [] => [[c]]
      | x :: xs => (c :: x) :: xs

/-- Go `strings.Split(s, ",")`. -/
def Split (s : String) : List String :=
  (splitChars ',' s.data).map String.mk

/-- Lines 59-65: the loop that fills `failureMap` from `failureList`. -/
def fillFailureMap (failureList : List String) : GoMap Bool :=
  failureList.foldl (fun m v => if v = "" then m else m.set v true) GoMap.empty

/-- Lines 58-65: `failureMap` computed from the `Failure` string of the protocol spec. -/
def failureMap (failure : String) : GoMap Bool :=
  fillFailureMap (Split failure)

/-- Function `GetProtocolSpec` (lines 33-35). -/
def GetProtocolSpec (env : Env) (p : String) : Protocol :=
  env.Protocols p

/-- Lines 54-71: the `Options` literal handed to the constructor. `PoolTTL` is not
mentioned by the literal and keeps its zero value. -/
def newOptions (env : Env) (protocol : String) (tlsConfig : Option Nat) : Options :=
  let p := GetProtocolSpec env protocol
  let poolSize := DefaultPoolSize
  { TLSConfig := tlsConfig, PoolSize := poolSize, PoolTTL := 0, Failure := failureMap p.Failure }

/-- Error built on line 41. -/
def unsupportedError (protocol : String) : GoError :=
  ⟨"don not Support [" ++ protocol ++ "] client"⟩

/-- Text of the warning of lines 51-52. -/
def tlsWarning (protocol service : String) (ssl : SSLConfig) : String :=
  protocol ++ " " ++ service ++ " TLS mode, verify peer: " ++ toString ssl.VerifyPeer
    ++ ", cipher plugin: " ++ ssl.CipherPlugin ++ "."

/-! ## `CreateClient` -/

/-- Function `CreateClient` (lines 38-74). `hist` is the history of events before the call;
the result is the outcome and the events of the call itself, in order. -/
def CreateClient (env : Env) (protocol service : String) (hist : List Event) :
    Outcome × List Event :=
  let ev1 := [Event.getClientNewFunc protocol]
  match env.GetClientNewFunc protocol with
  | none =>
    let err := unsupportedError protocol
    (Outcome.ret ProtocolClient.nil (some err), ev1 ++ [Event.logError "" err])
  | some f =>
    let r := env.GetTLSConfigByService service protocol env.Consumer
    let ev2 := ev1 ++ [Event.getTLSConfigByService service protocol env.Consumer]
    let build := fun (evs : List Event) =>
      let o := newOptions env protocol r.tlsConfig
      let c := f o (hist ++ evs)
      (Outcome.ret c none, evs ++ [Event.newClient protocol o])
    match r.err with
    | some err =>
      if !env.IsSSLConfigNotExist err then (Outcome.ret ProtocolClient.nil (some err), ev2)
      else build ev2
    | none =>
      match r.sslConfig with
      | none => (Outcome.panic, ev2)
      | some ssl => build (ev2 ++ [Event.logWarn (tlsWarning protocol service ssl)])

/-! ## The cache and `GetClient` -/

/-- Package-level state: the map `clients` (protocol ↦ reference to a service map), the
heap of service maps with its allocation pointer `next`, and the trace of events. -/
structure State where
  clients : GoMap Nat
  heap : Nat → GoMap ProtocolClient
  next : Nat
  trace : List Event

/-- State at program start: `clients = make(map[string]map[string]ProtocolClient)`. -/
def State.init : State :=
  { clients := GoMap.empty, heap := fun _ => GoMap.empty, next := 0, trace := [] }

/-- Append events to the trace. -/
def State.emit (st : State) (evs : List Event) : State :=
  { st with trace := st.trace ++ evs }

/-- Lines 84-88: log, `make` a service map and publish it under `protocol`.
Returns the reference of the new map. -/
def State.insertMap (st : State) (protocol : String) : Nat × State :=
  let clientMap := st.next
  (clientMap,
    { clients := st.clients.set protocol clientMap,
      heap := Function.update st.heap clientMap GoMap.empty,
      next := st.next + 1,
      trace := st.trace ++ [Event.logInfo ("Create client map for " ++ protocol)] })

/-- Lines 99-101: `clientMap[service] = c`. -/
def State.store (st : State) (clientMap : Nat) (service : String) (c : ProtocolClient) : State :=
  { st with heap := Function.update st.heap clientMap ((st.heap clientMap).set service c) }

/-- Expression `clients[protocol][service]`: the client reachable through the
protocol-level map, if any. -/
def State.lookup (st : State) (protocol service : String) : Option ProtocolClient :=
  match st.clients protocol with
  | none => none
  | some m => st.heap m service

/-- Lines 80-89: the service map registered for `protocol`, inserted first if there is
none. Returns the reference held by the local variable `clientMap`. -/
def State.ensureMap (st : State) (protocol : String) : Nat × State :=
  match st.clients protocol with
  | some m => (m, st)
  | none => st.insertMap protocol

/-- Lines 80-94 on a miss: the state in which `GetClient` calls `CreateClient`. -/
def State.beforeCreate (st : State) (protocol service : String) : State :=
  (st.ensureMap protocol).2.emit [Event.logInfo ("Create client for " ++ service)]

/-- Function `GetClient` (lines 77-104), run without interference from other threads. -/
def GetClient (env : Env) (protocol service : String) (st : State) : Outcome × State :=
  let (clientMap, st1) := st.ensureMap protocol
  match st1.heap clientMap service with
  | some c => (Outcome.ret c none, st1)
  | none =>
    let st2 := st1.emit [Event.logInfo ("Create client for " ++ service)]
    match CreateClient env protocol service st2.trace with
    | (Outcome.ret c none, evs) =>
      (Outcome.ret c none, ((st2.emit evs).store clientMap service c))
    | (Outcome.ret _ (some err), evs) =>
      (Outcome.ret ProtocolClient.nil (some err), st2.emit evs)
    | (Outcome.panic, evs) => (Outcome.panic, st2.emit evs)

/-- Well-formed cache states: every registered reference is allocated and no two
protocols share a service map. Every state reachable from `State.init` is well formed,
since the only write to `clients` (line 87) stores a map made on line 85. -/
def State.WF (st : State) : Prop :=
  (∀ p m, st.clients p = some m → m < st.next) ∧
  (∀ p q m, st.clients p = some m → st.clients q = some m → p = q)

/-- Predicate: the event is a constructor call for `protocol`. -/
def Event.isNewClient (protocol : String) : Event → Bool
  | Event.newClient p _ => decide (p = protocol)
  | _ => false

/-- Predicate: the event is a call of the TLS resolver. -/
def Event.isTLS : Event → Bool
  | Event.getTLSConfigByService _ _ _ => true
  | _ => false

/-- Predicate: the event is a constructor call, of any protocol. -/
def Event.isConstruct : Event → Bool
  | Event.newClient _ _ => true
  | _ => false

/-! ## A concrete environment -/

/-- A constructor that hands out a new instance on every call: the address is the
number of events before the call. -/
def freshClient : NewFunc := fun _ hist => ProtocolClient.ref hist.length

/-- An environment with one registered protocol, `rest`, whose failure string is
`a,,b`. TLS is configured for service `secure`, fails for service `broken`, and is
not configured for any other service. -/
def sampleEnv : Env :=
  { GetClientNewFunc := fun p => if p = "rest" then some freshClient else none
    GetTLSConfigByService := fun service _ _ =>
      if service = "secure" then ⟨some 7, some ⟨true, "default"⟩, none⟩
      else if service = "broken" then ⟨none, none, some ⟨"read cert failed"⟩⟩
      else ⟨none, none, some ⟨"ssl config not exist"⟩⟩
    IsSSLConfigNotExist := fun e => decide (e.msg = "ssl config not exist")
    Protocols := fun p => if p = "rest" then ⟨"a,,b"⟩ else ⟨""⟩
    Consumer := "Consumer" }

/-- Program points of one `GetClient` call, with the local variables that are live there.
Between two program points lies one lock-protected section or one call into a
collaborator. -/
inductive Pc where
  | start
  | insert
  | check (clientMap : Nat)
  | create (clientMap : Nat)
  | resolve (clientMap : Nat) (f : NewFunc)
  | build (clientMap : Nat) (f : NewFunc) (tlsConfig : Option Nat)
  | store (clientMap : Nat) (c : ProtocolClient)
  | done (o : Outcome)

/-- A thread executing `GetClient(protocol, service)`. The field `calls` is a ghost
counter: the number of times this thread has invoked a constructor. -/
structure Thread where
  protocol : String
  service : String
  pc : Pc
  calls : Nat

/-- A thread about to enter `GetClient(protocol, service)`. -/
def Thread.new (protocol service : String) : Thread :=
  { protocol := protocol, service := service, pc := Pc.start, calls := 0 }

/-- One atomic step of a thread on the shared state.
* `start`: lines 80-83, read `clients[protocol]` under `pl.RLock`.
* `insert`: lines 84-88, publish a new service map under `pl.Lock`.
* `check`: lines 90-93, read `clientMap[service]` under `sl.RLock`.
* `create`: lines 94-95 and 39-44, the registry lookup of `CreateClient`.
* `resolve`: lines 45-53, TLS resolution.
* `build`: lines 54-73 and 96, options and constructor call.
* `store`: lines 99-103, write `clientMap[service]` under `sl.Lock`. -/
def Thread.step (env : Env) (t : Thread) (st : State) : Thread × State :=
  match t.pc with
  | Pc.start =>
    match st.clients t.protocol with
    | some m => ({ t with pc := Pc.check m }, st)
    | none => ({ t with pc := Pc.insert }, st)
  | Pc.insert =>
    let (m, st1) := st.insertMap t.protocol
    ({ t with pc := Pc.check m }, st1)
  | Pc.check m =>
    match st.heap m t.service with
    | some c => ({ t with pc := Pc.done (Outcome.ret c none) }, st)
    | none => ({ t with pc := Pc.create m }, st)
  | Pc.create m =>
    let st1 := st.emit [Event.logInfo ("Create client for " ++ t.service),
      Event.getClientNewFunc t.protocol]
    match env.GetClientNewFunc t.protocol with
    | none =>
      let err := unsupportedError t.protocol
      ({ t with pc := Pc.done (Outcome.ret ProtocolClient.nil (some err)) },
        st1.emit [Event.logError "" err])
    | some f => ({ t with pc := Pc.resolve m f }, st1)
  | Pc.resolve m f =>
    let r := env.GetTLSConfigByService t.service t.protocol env.Consumer
    let st1 := st.emit [Event.getTLSConfigByService t.service t.protocol env.Consumer]
    match r.err with
    | some err =>
      if !env.IsSSLConfigNotExist err then
        ({ t with pc := Pc.done (Outcome.ret ProtocolClient.nil (some err)) }, st1)
      else ({ t with pc := Pc.build m f r.tlsConfig }, st1)
    | none =>
      match r.sslConfig with
      | none => ({ t with pc := Pc.done Outcome.panic }, st1)
      | some ssl =>
        ({ t with pc := Pc.build m f r.tlsConfig },
          st1.emit [Event.logWarn (tlsWarning t.protocol t.service ssl)])
  | Pc.build m f tlsConfig =>
    let o := newOptions env t.protocol tlsConfig
    let c := f o st.trace
    ({ t with pc := Pc.store m c, calls := t.calls + 1 },
      st.emit [Event.newClient t.protocol o])
  | Pc.store m c =>
    ({ t with pc := Pc.done (Outcome.ret c none) }, st.store m t.service c)
  | Pc.done _ => (t, st)

/-- Run a single thread for `n` steps. -/
def Thread.run (env : Env) : Nat → Thread → State → Thread × State
  | 0, t, st => (t, st)
  | n + 1, t, st =>
    let (t1, st1) := t.step env st
    Thread.run env n t1 st1

/-- Several threads over the shared state. -/
structure System where
  st : State
  threads : List Thread

/-- Thread number `i` takes one step (nothing happens if there is no such thread). -/
def System.step (env : Env) (sys : System) (i : Nat) : System :=
  match sys.threads[i]? with
  | none => sys
  | some t =>
    let (t1, st1) := t.step env sys.st
    { st := st1, threads := sys.threads.set i t1 }

/-- Run a schedule: the list of thread numbers in the order in which they step. -/
def System.run (env : Env) (sys : System) (sched : List Nat) : System :=
  sched.foldl (System.step env) sys

/-- Predicate: the thread has left `GetClient`. -/
def Thread.finished (t : Thread) : Bool :=
  match t.pc with
  | Pc.done _ => true
  | _ => false

/-- The outcome of a finished thread. -/
def Thread.outcome (t : Thread) : Option Outcome :=
  match t.pc with
  | Pc.done o => some o
  | _ => none

/-- Number of constructor calls for `protocol` recorded in a trace. -/
def constructorCalls (protocol : String) (tr : List Event) : Nat :=
  (tr.filter (Event.isNewClient protocol)).length

/-- Sum of the ghost counters of a list of threads. -/
def totalCalls : List Thread → Nat
  | [] => 0
  | t :: ts => t.calls + totalCalls ts

/-- The ghost counter agrees with the program point: a thread has called a constructor
once when it is about to store, at most once when it has finished, and not before. -/
def Thread.callsOK (t : Thread) : Prop :=
  match t.pc with
  | Pc.store _ _ => t.calls = 1
  | Pc.done _ => t.calls ≤ 1
  | _ => t.calls = 0

/-- The TLS resolution for `(service, protocol)` lets `CreateClient` go on to the
constructor: the error is nil and an `SSLConfig` is returned, or the error is the
"no SSL configuration exists" signal. -/
def Env.tlsProceeds (env : Env) (protocol service : String) : Bool :=
  match (env.GetTLSConfigByService service protocol env.Consumer).err with
  | some err => env.IsSSLConfigNotExist err
  | none => (env.GetTLSConfigByService service protocol env.Consumer).sslConfig.isSome

/-- Events of the TLS resolution step of `CreateClient` (lines 45-53): the resolver
call, followed by the warning when the resolver returned no error. -/
def Env.tlsEvents (env : Env) (protocol service : String) : List Event :=
  match (env.GetTLSConfigByService service protocol env.Consumer).err with
  | some _ => [Event.getTLSConfigByService service protocol env.Consumer]
  | none =>
    match (env.GetTLSConfigByService service protocol env.Consumer).sslConfig with
    | none => [Event.getTLSConfigByService service protocol env.Consumer]
    | some ssl => [Event.getTLSConfigByService service protocol env.Consumer,
        Event.logWarn (tlsWarning protocol service ssl)]

/-- Program points of a thread that read the service map `m0` in its first step and
can only finish with a nil error. -/
def Thread.uses (m0 : Nat) (t : Thread) : Prop :=
  match t.pc with
  | Pc.start => True
  | Pc.insert => False
  | Pc.check m => m = m0
  | Pc.create m => m = m0
  | Pc.resolve m _ => m = m0
  | Pc.build m _ _ => m = m0
  | Pc.store m _ => m = m0
  | Pc.done o => ∃ c, o = Outcome.ret c none

/-- Invariant of concurrent lookups of one key `(p, s)` whose protocol has the
registered service map `m0`: the map stays registered, every thread works on `m0`, a
finished thread leaves the key cached, and the key is cached only after a constructor
call. -/
def RaceInv (p s : String) (m0 : Nat) (sys : System) : Prop :=
  sys.st.clients p = some m0 ∧
  (∀ t ∈ sys.threads, t.protocol = p ∧ t.service = s ∧ t.callsOK ∧ t.uses m0 ∧
    (t.finished = true → sys.st.heap m0 s ≠ none)) ∧
  (sys.st.heap m0 s ≠ none →
    ∃ (i : Nat) (t : Thread), sys.threads[i]? = some t ∧ t.calls = 1)

/-- Two threads that concurrently enter `GetClient(p, s)` in state `st`. -/
def twoCalls (p s : String) (st : State) : System :=
  { st := st, threads := [Thread.new p s, Thread.new p s] }

/-- A schedule for two threads whose service map is registered: both threads read the
maps and miss, both run `CreateClient`, then thread 0 stores. -/
def raceUntilFirstStore : List Nat := [0, 0, 1, 1, 0, 0, 0, 1, 1, 1, 0]

/-- The schedule `raceUntilFirstStore` followed by the store of thread 1. -/
def raceSchedule : List Nat := raceUntilFirstStore ++ [1]

/-- Two threads that concurrently enter `GetClient` for two services of the protocol
`rest` at program start, when no service map is registered yet. -/
def unseenProtocolCalls : System :=
  { st := State.init, threads := [Thread.new "rest" "a", Thread.new "rest" "b"] }

/-- A schedule for `unseenProtocolCalls`: both threads find no service map for the
protocol; thread 0 inserts one, creates its client and stores it; then thread 1 inserts
its own map, creates its client and stores it. -/
def insertRaceSchedule : List Nat := [0, 1, 0, 0, 0, 0, 0, 0, 1, 1, 1, 1, 1, 1]

/-! ## Lemmas on `strings.Split` and the failure map -/

theorem splitChars_ne_nil (sep : Char) (l : List Char) : splitChars sep l ≠ [] := by
  induction l with
  | nil => simp [splitChars]
  | cons c cs ih =>
    unfold splitChars
    split
    · simp
    · split <;> simp

/-- Joining the pieces with the separator gives the input back. -/
theorem splitChars_intercalate (sep : Char) (l : List Char) :
    List.intercalate [sep] (splitChars sep l) = l := by
  induction l with
  | nil => simp [splitChars, List.intercalate]
  | cons c cs ih =>
    unfold splitChars
    split
    · rename_i h
      cases hs : splitChars sep cs with
      | nil => exact absurd hs (splitChars_ne_nil sep cs)
      | cons x xs =>
        rw [hs] at ih
        simp [List.intercalate, List.intersperse] at ih ⊢
        simp [ih, h]
    · cases hs : splitChars sep cs with
      | nil => exact absurd hs (splitChars_ne_nil sep cs)
      | cons x xs =>
        rw [hs] at ih
        cases xs with
        | nil => simp [List.intercalate, List.intersperse] at ih ⊢; exact ih
        | cons y ys => simp [List.intercalate, List.intersperse] at ih ⊢; exact ih

/-- No piece contains the separator. -/
theorem splitChars_no_sep (sep : Char) (l : List Char) :
    ∀ p ∈ splitChars sep l, sep ∉ p := by
  induction l with
  | nil => simp [splitChars]
  | cons c cs ih =>
    unfold splitChars
    split
    · intro p hp
      simp at hp
      rcases hp with rfl | hp
      · simp
      · exact ih p hp
    · rename_i h
      cases hs : splitChars sep cs with
      | nil => exact absurd hs (splitChars_ne_nil sep cs)
      | cons x xs =>
        rw [hs] at ih
        intro p hp
        simp at hp
        rcases hp with rfl | hp
        · have := ih x (by simp)
          simp [this]
          exact fun e => h e.symm
        · exact ih p (by simp [hp])

theorem fill_aux (l : List String) (m : GoMap Bool) (t : String) :
    (l.foldl (fun m v => if v = "" then m else m.set v true) m) t = some true ↔
      (m t = some true ∨ (t ≠ "" ∧ t ∈ l)) := by
  induction l generalizing m with
  | nil => simp
  | cons v vs ih =>
    simp only [List.foldl_cons, ih]
    by_cases hv : v = ""
    · subst hv
      simp
      constructor
      · rintro (h | ⟨h1, h2⟩)
        · exact Or.inl h
        · exact Or.inr ⟨h1, Or.inr h2⟩
      · rintro (h | ⟨h1, h2 | h2⟩)
        · exact Or.inl h
        · exact absurd h2 h1
        · exact Or.inr ⟨h1, h2⟩
    · simp only [hv, if_false, GoMap.set]
      by_cases ht : t = v
      · subst ht; simp [hv]
      · simp [ht]

theorem fill_aux_none (l : List String) (m : GoMap Bool) (t : String)
    (hm : m t = some true ∨ m t = none) :
    (l.foldl (fun m v => if v = "" then m else m.set v true) m) t = some true ∨
    (l.foldl (fun m v => if v = "" then m else m.set v true) m) t = none := by
  induction l generalizing m with
  | nil => simpa using hm
  | cons v vs ih =>
    simp only [List.foldl_cons]
    apply ih
    by_cases hv : v = ""
    · simpa [hv] using hm
    · simp only [hv, if_false, GoMap.set]
      by_cases ht : t = v
      · simp [ht]
      · simpa [ht] using hm

theorem failureMap_true_iff (f t : String) :
    failureMap f t = some true ↔ t ≠ "" ∧ t ∈ Split f := by
  unfold failureMap fillFailureMap
  rw [fill_aux]
  simp [GoMap.empty]

theorem failureMap_true_or_none (f t : String) :
    failureMap f t = some true ∨ failureMap f t = none := by
  unfold failureMap fillFailureMap
  exact fill_aux_none _ _ _ (Or.inr rfl)

theorem failureMap_eq_none (f t : String) (h : ¬ (t ≠ "" ∧ t ∈ Split f)) :
    failureMap f t = none := by
  rcases failureMap_true_or_none f t with h1 | h1
  · exact absurd ((failureMap_true_iff f t).1 h1) h
  · exact h1

/-- The events of a `CreateClient` call that are constructor calls carry the options
`newOptions`, and the call returns the constructor's result. -/
theorem CreateClient_newClient (env : Env) (protocol service : String) (hist : List Event)
    (p : String) (o : Options)
    (h : Event.newClient p o ∈ (CreateClient env protocol service hist).2) :
    ∃ f pre, env.GetClientNewFunc protocol = some f ∧ p = protocol ∧
      o = newOptions env protocol
        (env.GetTLSConfigByService service protocol env.Consumer).tlsConfig ∧
      (∀ e ∈ pre, Event.isConstruct e = false) ∧
      CreateClient env protocol service hist =
        (Outcome.ret (f o (hist ++ pre)) none, pre ++ [Event.newClient protocol o]) := by
  unfold CreateClient at h ⊢
  cases hf : env.GetClientNewFunc protocol with
  | none => simp [hf] at h
  | some f =>
    simp only [hf] at h ⊢
    cases he : (env.GetTLSConfigByService service protocol env.Consumer).err with
    | some err =>
      simp only [he] at h ⊢
      by_cases hn : env.IsSSLConfigNotExist err = true
      · simp [hn] at h
        obtain ⟨rfl, rfl⟩ := h
        refine ⟨f, [Event.getClientNewFunc p,
          Event.getTLSConfigByService service p env.Consumer], rfl, rfl, rfl, ?_, ?_⟩
        · simp [Event.isConstruct]
        · simp [hn]
      · simp [hn] at h
    | none =>
      simp only [he] at h ⊢
      cases hs : (env.GetTLSConfigByService service protocol env.Consumer).sslConfig with
      | none => simp [hs] at h
      | some ssl =>
        simp [hs] at h
        obtain ⟨rfl, rfl⟩ := h
        refine ⟨f, [Event.getClientNewFunc p,
          Event.getTLSConfigByService service p env.Consumer,
          Event.logWarn (tlsWarning p service ssl)], rfl, rfl, rfl, ?_, ?_⟩
        · simp [Event.isConstruct]
        · simp [hs]

/-- An error return of `CreateClient` carries the nil client. -/
theorem CreateClient_err_nil (env : Env) (protocol service : String) (hist : List Event)
    (c : ProtocolClient) (e : GoError)
    (h : (CreateClient env protocol service hist).1 = Outcome.ret c (some e)) :
    c = ProtocolClient.nil := by
  unfold CreateClient at h
  cases hf : env.GetClientNewFunc protocol with
  | none => simp [hf] at h; exact h.1.symm
  | some f =>
    simp only [hf] at h
    cases he : (env.GetTLSConfigByService service protocol env.Consumer).err with
    | some err =>
      simp only [he] at h
      by_cases hn : env.IsSSLConfigNotExist err = true
      · simp [hn] at h
      · simp [hn] at h; exact h.1.symm
    | none =>
      simp only [he] at h
      cases hs : (env.GetTLSConfigByService service protocol env.Consumer).sslConfig with
      | none => simp [hs] at h
      | some ssl => simp [hs] at h

theorem ensureMap_clients (st : State) (p : String) :
    (st.ensureMap p).2.clients p = some (st.ensureMap p).1 := by
  unfold State.ensureMap
  cases h : st.clients p with
  | none => simp [State.insertMap, GoMap.set]
  | some m => simp [h]

theorem ensureMap_heap (st : State) (p s : String) :
    (st.ensureMap p).2.heap (st.ensureMap p).1 s = st.lookup p s := by
  unfold State.ensureMap State.lookup
  cases h : st.clients p with
  | none => simp [State.insertMap, GoMap.empty]
  | some m => simp

/-- A cache hit returns the cached client and leaves the state untouched. -/
theorem GetClient_hit (env : Env) (p s : String) (st : State) (c : ProtocolClient)
    (h : st.lookup p s = some c) : GetClient env p s st = (Outcome.ret c none, st) := by
  have h1 := ensureMap_heap st p s
  unfold GetClient
  unfold State.lookup at h
  cases hc : st.clients p with
  | none => simp [hc] at h
  | some m =>
    simp only [hc] at h
    simp [State.ensureMap, hc, h]

/-- On a miss, `GetClient` returns what `CreateClient` returns, and stores the client
exactly when the error is nil. -/
theorem GetClient_miss (env : Env) (p s : String) (st : State)
    (h : st.lookup p s = none) :
    (GetClient env p s st).1 = (CreateClient env p s (st.beforeCreate p s).trace).1 ∧
    (GetClient env p s st).2 =
      match (CreateClient env p s (st.beforeCreate p s).trace).1 with
      | Outcome.ret c none =>
        ((st.beforeCreate p s).emit (CreateClient env p s (st.beforeCreate p s).trace).2).store
          (st.ensureMap p).1 s c
      | _ => (st.beforeCreate p s).emit (CreateClient env p s (st.beforeCreate p s).trace).2 := by
  have h1 := ensureMap_heap st p s
  rw [h] at h1
  unfold GetClient State.beforeCreate
  generalize st.ensureMap p = em at h1 ⊢
  obtain ⟨m, st1⟩ := em
  simp only at h1 ⊢
  simp only [h1]
  generalize hr :
    CreateClient env p s (st1.emit [Event.logInfo ("Create client for " ++ s)]).trace = r
  obtain ⟨o, evs⟩ := r
  cases o with
  | panic => simp
  | ret c err =>
    cases err with
    | none => simp
    | some e =>
      have := CreateClient_err_nil env p s _ c e (by rw [hr])
      subst this
      simp

theorem lookup_emit (st : State) (evs : List Event) (p s : String) :
    (st.emit evs).lookup p s = st.lookup p s := rfl

theorem lookup_store (st : State) (m : Nat) (s : String) (c : ProtocolClient)
    (p' s' : String) :
    (st.store m s c).lookup p' s' =
      if st.clients p' = some m ∧ s' = s then some c else st.lookup p' s' := by
  unfold State.store State.lookup
  cases h : st.clients p' with
  | none => simp
  | some k =>
    by_cases hk : k = m
    · subst hk
      by_cases hs : s' = s
      · simp [hs, GoMap.set]
      · simp [hs, GoMap.set]
    · simp [hk, Function.update]

/-- Without any assumption on the state, `ensureMap` adds no client to the cache. -/
theorem lookup_ensureMap_some (st : State) (p p' s' : String) (c : ProtocolClient)
    (h : (st.ensureMap p).2.lookup p' s' = some c) : st.lookup p' s' = some c := by
  unfold State.ensureMap at h
  cases hc : st.clients p with
  | some m => simpa [hc] using h
  | none =>
    simp only [hc, State.insertMap, State.lookup, GoMap.set] at h
    by_cases hp : p' = p
    · simp [hp, GoMap.empty] at h
    · simp only [hp, if_false] at h
      unfold State.lookup
      cases hc' : st.clients p' with
      | none => simp [hc'] at h
      | some k =>
        simp only [hc'] at h ⊢
        by_cases hk : k = st.next
        · simp [hk, GoMap.empty] at h
        · simpa [Function.update, hk] using h

/-- In a well-formed state `ensureMap` changes no lookup. -/
theorem lookup_ensureMap (st : State) (hwf : st.WF) (p p' s' : String) :
    (st.ensureMap p).2.lookup p' s' = st.lookup p' s' := by
  unfold State.ensureMap
  cases hc : st.clients p with
  | some m => simp
  | none =>
    simp only [State.insertMap, State.lookup, GoMap.set]
    by_cases hp : p' = p
    · simp [hp, hc, GoMap.empty]
    · simp only [hp, if_false]
      cases hc' : st.clients p' with
      | none => simp
      | some k =>
        have := hwf.1 p' k hc'
        have hk : k ≠ st.next := by omega
        simp [Function.update, hk]

theorem WF_init : State.init.WF := by
  constructor
  · intro p m h; simp [State.init, GoMap.empty] at h
  · intro p q m h; simp [State.init, GoMap.empty] at h

theorem WF_emit (st : State) (hwf : st.WF) (evs : List Event) : (st.emit evs).WF := hwf

theorem WF_store (st : State) (hwf : st.WF) (m : Nat) (s : String) (c : ProtocolClient) :
    (st.store m s c).WF := hwf

theorem WF_insertMap (st : State) (hwf : st.WF) (p : String) : (st.insertMap p).2.WF := by
  constructor
  · intro q m h
    simp only [State.insertMap, GoMap.set] at h ⊢
    by_cases hq : q = p
    · simp [hq] at h; omega
    · simp only [hq, if_false] at h
      have := hwf.1 q m h
      omega
  · intro q r m h1 h2
    simp only [State.insertMap, GoMap.set] at h1 h2
    by_cases hq : q = p <;> by_cases hr : r = p
    · rw [hq, hr]
    · simp [hq] at h1; simp only [hr, if_false] at h2
      have := hwf.1 r m h2
      omega
    · simp [hr] at h2; simp only [hq, if_false] at h1
      have := hwf.1 q m h1
      omega
    · simp only [hq, hr, if_false] at h1 h2
      exact hwf.2 q r m h1 h2

theorem WF_ensureMap (st : State) (hwf : st.WF) (p : String) : (st.ensureMap p).2.WF := by
  unfold State.ensureMap
  cases hc : st.clients p with
  | some m => simpa using hwf
  | none => simpa using WF_insertMap st hwf p

/-- Well-formedness is preserved by `GetClient`. -/
theorem WF_GetClient (env : Env) (p s : String) (st : State) (hwf : st.WF) :
    (GetClient env p s st).2.WF := by
  cases h : st.lookup p s with
  | some c => rw [GetClient_hit env p s st c h]; exact hwf
  | none =>
    rw [(GetClient_miss env p s st h).2]
    have h0 : (st.beforeCreate p s).WF := WF_emit _ (WF_ensureMap st hwf p) _
    split
    · exact WF_store _ (WF_emit _ h0 _) _ _ _
    · exact WF_emit _ h0 _

/-- The entry of the requested key after `GetClient`. -/
theorem GetClient_lookup_self (env : Env) (p s : String) (st : State) :
    (GetClient env p s st).2.lookup p s =
      match st.lookup p s with
      | some c => some c
      | none =>
        match (GetClient env p s st).1 with
        | Outcome.ret c none => some c
        | _ => none := by
  cases h : st.lookup p s with
  | some c => simp [GetClient_hit env p s st c h, h]
  | none =>
    obtain ⟨h1, h2⟩ := GetClient_miss env p s st h
    rw [h2, h1]
    have hb : (st.beforeCreate p s).lookup p s = none := by
      unfold State.beforeCreate
      rw [lookup_emit]
      have := ensureMap_heap st p s
      unfold State.lookup
      rw [ensureMap_clients]
      simpa [h] using this
    have hcl : (st.beforeCreate p s).clients p = some (st.ensureMap p).1 :=
      ensureMap_clients st p
    generalize CreateClient env p s (st.beforeCreate p s).trace = r
    obtain ⟨o, evs⟩ := r
    cases o with
    | panic => simpa using hb
    | ret c err =>
      cases err with
      | none =>
        simp only
        rw [lookup_store]
        simp [State.emit, hcl]
      | some e => simpa using hb

/-- In a well-formed state `GetClient(p, s)` changes no entry other than that of `(p, s)`. -/
theorem GetClient_lookup_other (env : Env) (p s : String) (st : State) (hwf : st.WF)
    (p' s' : String) (hne : ¬ (p' = p ∧ s' = s)) :
    (GetClient env p s st).2.lookup p' s' = st.lookup p' s' := by
  cases h : st.lookup p s with
  | some c => simp [GetClient_hit env p s st c h]
  | none =>
    obtain ⟨h1, h2⟩ := GetClient_miss env p s st h
    rw [h2]
    have hb : (st.beforeCreate p s).lookup p' s' = st.lookup p' s' := by
      unfold State.beforeCreate
      rw [lookup_emit, lookup_ensureMap st hwf]
    have hcl : (st.beforeCreate p s).clients p = some (st.ensureMap p).1 :=
      ensureMap_clients st p
    have hwf1 : (st.beforeCreate p s).WF := WF_emit _ (WF_ensureMap st hwf p) _
    generalize CreateClient env p s (st.beforeCreate p s).trace = r
    obtain ⟨o, evs⟩ := r
    cases o with
    | panic => simpa using hb
    | ret c err =>
      cases err with
      | none =>
        simp only
        rw [lookup_store]
        have : ¬ (((st.beforeCreate p s).emit evs).clients p' = some (st.ensureMap p).1 ∧
            s' = s) := by
          rintro ⟨ha, hs⟩
          exact hne ⟨hwf1.2 p' p _ ha hcl, hs⟩
        rw [if_neg this, lookup_emit, hb]
      | some e => simpa using hb

theorem isNewClient_isConstruct (p : String) (e : Event) (h : Event.isConstruct e = false) :
    Event.isNewClient p e = false := by
  cases e <;> simp_all [Event.isConstruct, Event.isNewClient]

/-- A successful `CreateClient` has called the constructor exactly once, as its last
action. -/
theorem CreateClient_ok (env : Env) (p s : String) (hist : List Event) (c : ProtocolClient)
    (h : (CreateClient env p s hist).1 = Outcome.ret c none) :
    ∃ f o pre, env.GetClientNewFunc p = some f ∧
      (∀ e ∈ pre, Event.isConstruct e = false) ∧ c = f o (hist ++ pre) ∧
      (CreateClient env p s hist).2 = pre ++ [Event.newClient p o] := by
  have key : ∃ o, Event.newClient p o ∈ (CreateClient env p s hist).2 := by
    unfold CreateClient at h ⊢
    cases hf : env.GetClientNewFunc p with
    | none => simp [hf] at h
    | some f =>
      simp only [hf] at h ⊢
      cases he : (env.GetTLSConfigByService s p env.Consumer).err with
      | some err =>
        simp only [he] at h ⊢
        by_cases hn : env.IsSSLConfigNotExist err = true
        · exact ⟨newOptions env p (env.GetTLSConfigByService s p env.Consumer).tlsConfig,
            by simp [hn]⟩
        · simp [hn] at h
      | none =>
        simp only [he] at h ⊢
        cases hs : (env.GetTLSConfigByService s p env.Consumer).sslConfig with
        | none => simp [hs] at h
        | some ssl =>
          exact ⟨newOptions env p (env.GetTLSConfigByService s p env.Consumer).tlsConfig,
            by simp [hs]⟩
  obtain ⟨o, ho⟩ := key
  obtain ⟨f, pre, hf, -, -, hpre, heq⟩ := CreateClient_newClient env p s hist p o ho
  refine ⟨f, o, pre, hf, hpre, ?_, by rw [heq]⟩
  rw [heq] at h
  simp at h
  exact h.symm

theorem trace_ensureMap (st : State) (p : String) :
    ∃ l, (st.ensureMap p).2.trace = st.trace ++ l ∧ ∀ e ∈ l, Event.isConstruct e = false ∧
      Event.isTLS e = false := by
  unfold State.ensureMap
  cases hc : st.clients p with
  | some m => exact ⟨[], by simp⟩
  | none => exact ⟨[Event.logInfo ("Create client map for " ++ p)],
      by simp [State.insertMap, Event.isConstruct, Event.isTLS]⟩

theorem trace_beforeCreate (st : State) (p s : String) :
    ∃ l, (st.beforeCreate p s).trace = st.trace ++ l ∧
      ∀ e ∈ l, Event.isConstruct e = false ∧ Event.isTLS e = false := by
  obtain ⟨l, hl, hl2⟩ := trace_ensureMap st p
  refine ⟨l ++ [Event.logInfo ("Create client for " ++ s)], ?_, ?_⟩
  · simp [State.beforeCreate, State.emit, hl]
  · intro e he
    simp at he
    rcases he with he | rfl
    · exact hl2 e he
    · simp [Event.isConstruct, Event.isTLS]

/-- C1: for a key `(p, s)` that is not cached and whose creation succeeds, two sequential
calls of `GetClient(p, s)` both return a nil error and the same client instance; the
second call leaves the whole state, trace included, untouched (it calls neither the
constructor nor the TLS resolver), and the events of the two calls contain exactly one
constructor call. -/
theorem GetClient_twice_same_instance (env : Env) (p s : String) (st : State)
    (hnew : st.lookup p s = none)
    (hok : ∀ hist, ∃ c, (CreateClient env p s hist).1 = Outcome.ret c none) :
    ∃ c evs,
      (GetClient env p s st).1 = Outcome.ret c none ∧
      GetClient env p s (GetClient env p s st).2 =
        (Outcome.ret c none, (GetClient env p s st).2) ∧
      (GetClient env p s (GetClient env p s st).2).2.trace = st.trace ++ evs ∧
      (evs.filter (Event.isNewClient p)).length = 1 ∧
      (evs.filter Event.isConstruct).length = 1 := by
  obtain ⟨c, hc⟩ := hok (st.beforeCreate p s).trace
  obtain ⟨h1, h2⟩ := GetClient_miss env p s st hnew
  have hout : (GetClient env p s st).1 = Outcome.ret c none := by rw [h1, hc]
  have hself := GetClient_lookup_self env p s st
  rw [hnew, hout] at hself
  simp only at hself
  have hsecond := GetClient_hit env p s _ c hself
  obtain ⟨f, o, pre, -, hpre, -, hevs⟩ := CreateClient_ok env p s _ c hc
  obtain ⟨l, hl, hl2⟩ := trace_beforeCreate st p s
  refine ⟨c, l ++ (pre ++ [Event.newClient p o]), hout, hsecond, ?_, ?_, ?_⟩
  · rw [hsecond, h2, hc]
    simp only [State.store, State.emit]
    rw [hevs, hl]
    simp
  · have e1 : l.filter (Event.isNewClient p) = [] :=
      List.filter_eq_nil_iff.2 (fun e he => by
        simp [isNewClient_isConstruct p e (hl2 e he).1])
    have e2 : pre.filter (Event.isNewClient p) = [] :=
      List.filter_eq_nil_iff.2 (fun e he => by
        simp [isNewClient_isConstruct p e (hpre e he)])
    simp [List.filter_append, e1, e2, Event.isNewClient]
  · have e1 : l.filter Event.isConstruct = [] :=
      List.filter_eq_nil_iff.2 (fun e he => by simp [(hl2 e he).1])
    have e2 : pre.filter Event.isConstruct = [] :=
      List.filter_eq_nil_iff.2 (fun e he => by simp [hpre e he])
    simp [List.filter_append, e1, e2, Event.isConstruct]

theorem sampleEnv_ok (s : String) (hs : s ≠ "secure" ∧ s ≠ "broken") (hist : List Event) :
    ∃ c, (CreateClient sampleEnv "rest" s hist).1 = Outcome.ret c none := by
  simp [CreateClient, sampleEnv, hs.1, hs.2]

/-- Instance of C1: the key `(rest, svc)` at program start in `sampleEnv`. -/
theorem GetClient_twice_same_instance_witness :
    State.init.lookup "rest" "svc" = none ∧
    (∀ hist, ∃ c, (CreateClient sampleEnv "rest" "svc" hist).1 = Outcome.ret c none) ∧
    ∃ c evs,
      (GetClient sampleEnv "rest" "svc" State.init).1 = Outcome.ret c none ∧
      GetClient sampleEnv "rest" "svc" (GetClient sampleEnv "rest" "svc" State.init).2 =
        (Outcome.ret c none, (GetClient sampleEnv "rest" "svc" State.init).2) ∧
      (GetClient sampleEnv "rest" "svc" (GetClient sampleEnv "rest" "svc" State.init).2).2.trace
        = State.init.trace ++ evs ∧
      (evs.filter (Event.isNewClient "rest")).length = 1 ∧
      (evs.filter Event.isConstruct).length = 1 :=
  ⟨rfl, sampleEnv_ok "svc" (by decide),
    GetClient_twice_same_instance sampleEnv "rest" "svc" State.init rfl
      (sampleEnv_ok "svc" (by decide))⟩

/-- A `GetClient` call that does not return a nil error was a miss, and adds no client to
the cache. -/
theorem GetClient_not_ok (env : Env) (p s : String) (st : State)
    (h : ∀ c, (GetClient env p s st).1 ≠ Outcome.ret c none) :
    st.lookup p s = none ∧ (GetClient env p s st).2.lookup p s = none ∧
    ∀ p' s' c, (GetClient env p s st).2.lookup p' s' = some c → st.lookup p' s' = some c := by
  have hmiss : st.lookup p s = none := by
    cases hl : st.lookup p s with
    | none => rfl
    | some c => exact absurd (by rw [GetClient_hit env p s st c hl]) (h c)
  have hself := GetClient_lookup_self env p s st
  rw [hmiss] at hself
  refine ⟨hmiss, ?_, ?_⟩
  · rw [hself]
    cases ho : (GetClient env p s st).1 with
    | panic => rfl
    | ret c e =>
      cases e with
      | none => exact absurd ho (h c)
      | some e => rfl
  · intro p' s' c hc
    obtain ⟨h1, h2⟩ := GetClient_miss env p s st hmiss
    rw [h2] at hc
    rw [h1] at h
    split at hc
    · rename_i c' hc'; exact absurd hc' (h c')
    · rw [lookup_emit, State.beforeCreate, lookup_emit] at hc
      exact lookup_ensureMap_some st p p' s' c hc

/-- The trace after a miss: the events of `CreateClient` follow the log lines. -/
theorem GetClient_miss_trace (env : Env) (p s : String) (st : State)
    (h : st.lookup p s = none) :
    (GetClient env p s st).2.trace =
      (st.beforeCreate p s).trace ++ (CreateClient env p s (st.beforeCreate p s).trace).2 := by
  rw [(GetClient_miss env p s st h).2]
  split <;> rfl

/-- C3: if no factory is registered for the protocol, `CreateClient` returns the nil
client and the unsupported-protocol error of line 41 after the registry lookup and one
log line, without a call of the TLS resolver or of a constructor; `GetClient` on a cache
without an entry for the key returns the nil client and the same error as `CreateClient`,
again without a TLS or constructor call. -/
theorem unsupported_protocol (env : Env) (protocol service : String)
    (hreg : env.GetClientNewFunc protocol = none) :
    (∀ hist, CreateClient env protocol service hist =
      (Outcome.ret ProtocolClient.nil (some (unsupportedError protocol)),
        [Event.getClientNewFunc protocol, Event.logError "" (unsupportedError protocol)])) ∧
    (∀ hist, ∀ e ∈ (CreateClient env protocol service hist).2,
      Event.isTLS e = false ∧ Event.isConstruct e = false) ∧
    (∀ st : State, st.lookup protocol service = none →
      (GetClient env protocol service st).1 =
        Outcome.ret ProtocolClient.nil (some (unsupportedError protocol)) ∧
      (∀ hist, (GetClient env protocol service st).1 =
        (CreateClient env protocol service hist).1) ∧
      ∃ evs, (GetClient env protocol service st).2.trace = st.trace ++ evs ∧
        ∀ e ∈ evs, Event.isTLS e = false ∧ Event.isConstruct e = false) := by
  have hc : ∀ hist, CreateClient env protocol service hist =
      (Outcome.ret ProtocolClient.nil (some (unsupportedError protocol)),
        [Event.getClientNewFunc protocol, Event.logError "" (unsupportedError protocol)]) := by
    intro hist
    simp [CreateClient, hreg]
  refine ⟨hc, ?_, ?_⟩
  · intro hist e he
    rw [hc] at he
    simp at he
    rcases he with rfl | rfl <;> simp [Event.isTLS, Event.isConstruct]
  · intro st hst
    obtain ⟨h1, -⟩ := GetClient_miss env protocol service st hst
    refine ⟨by rw [h1, hc], fun hist => by rw [h1, hc, hc], ?_⟩
    obtain ⟨l, hl, hl2⟩ := trace_beforeCreate st protocol service
    refine ⟨l ++ [Event.getClientNewFunc protocol,
      Event.logError "" (unsupportedError protocol)], ?_, ?_⟩
    · rw [GetClient_miss_trace env protocol service st hst, hc, hl]
      simp
    · intro e he
      simp at he
      rcases he with he | rfl | rfl
      · exact ⟨(hl2 e he).2, (hl2 e he).1⟩
      · simp [Event.isTLS, Event.isConstruct]
      · simp [Event.isTLS, Event.isConstruct]

/-- Instance of C3: the protocol `grpc` has no factory in `sampleEnv`. -/
theorem unsupported_protocol_witness :
    sampleEnv.GetClientNewFunc "grpc" = none ∧
    ((∀ hist, CreateClient sampleEnv "grpc" "svc" hist =
      (Outcome.ret ProtocolClient.nil (some (unsupportedError "grpc")),
        [Event.getClientNewFunc "grpc", Event.logError "" (unsupportedError "grpc")])) ∧
    (∀ hist, ∀ e ∈ (CreateClient sampleEnv "grpc" "svc" hist).2,
      Event.isTLS e = false ∧ Event.isConstruct e = false) ∧
    (∀ st : State, st.lookup "grpc" "svc" = none →
      (GetClient sampleEnv "grpc" "svc" st).1 =
        Outcome.ret ProtocolClient.nil (some (unsupportedError "grpc")) ∧
      (∀ hist, (GetClient sampleEnv "grpc" "svc" st).1 =
        (CreateClient sampleEnv "grpc" "svc" hist).1) ∧
      ∃ evs, (GetClient sampleEnv "grpc" "svc" st).2.trace = st.trace ++ evs ∧
        ∀ e ∈ evs, Event.isTLS e = false ∧ Event.isConstruct e = false)) :=
  ⟨by simp [sampleEnv], unsupported_protocol sampleEnv "grpc" "svc" (by simp [sampleEnv])⟩

/-- C4: if `GetClient(protocol, service)` returns an error, the client it returns is nil,
no key maps to a client after the call unless it mapped to that client before, and the
key itself stays uncached; a subsequent call, in whatever environment, runs
`CreateClient` again (its events are appended to the trace), returns what that creation
returns, and caches the client when the creation succeeds. -/
theorem failed_GetClient_caches_nothing (env : Env) (protocol service : String) (st : State)
    (c0 : ProtocolClient) (err : GoError)
    (hfail : (GetClient env protocol service st).1 = Outcome.ret c0 (some err)) :
    c0 = ProtocolClient.nil ∧
    (∀ p' s' c, (GetClient env protocol service st).2.lookup p' s' = some c →
      st.lookup p' s' = some c) ∧
    (GetClient env protocol service st).2.lookup protocol service = none ∧
    (∀ env2 : Env,
      (GetClient env2 protocol service (GetClient env protocol service st).2).1 =
        (CreateClient env2 protocol service
          (((GetClient env protocol service st).2).beforeCreate protocol service).trace).1 ∧
      (GetClient env2 protocol service (GetClient env protocol service st).2).2.trace =
        (((GetClient env protocol service st).2).beforeCreate protocol service).trace ++
          (CreateClient env2 protocol service
            (((GetClient env protocol service st).2).beforeCreate protocol service).trace).2 ∧
      Event.getClientNewFunc protocol ∈
        (CreateClient env2 protocol service
          (((GetClient env protocol service st).2).beforeCreate protocol service).trace).2 ∧
      (∀ c, (CreateClient env2 protocol service
          (((GetClient env protocol service st).2).beforeCreate protocol service).trace).1
            = Outcome.ret c none →
        (GetClient env2 protocol service (GetClient env protocol service st).2).1
            = Outcome.ret c none ∧
        (GetClient env2 protocol service
          (GetClient env protocol service st).2).2.lookup protocol service = some c)) := by
  have hno : ∀ c, (GetClient env protocol service st).1 ≠ Outcome.ret c none := by
    intro c hc
    rw [hfail] at hc
    simp at hc
  obtain ⟨hmiss, hself, hothers⟩ := GetClient_not_ok env protocol service st hno
  refine ⟨?_, hothers, hself, ?_⟩
  · have h1 := (GetClient_miss env protocol service st hmiss).1
    rw [hfail] at h1
    exact CreateClient_err_nil env protocol service _ c0 err h1.symm
  · intro env2
    obtain ⟨h1, -⟩ := GetClient_miss env2 protocol service _ hself
    refine ⟨h1, GetClient_miss_trace env2 protocol service _ hself, ?_, ?_⟩
    · unfold CreateClient
      cases env2.GetClientNewFunc protocol with
      | none => simp
      | some f =>
        simp only
        split
        · split <;> simp
        · split <;> simp
    · intro c hc
      have hout : (GetClient env2 protocol service (GetClient env protocol service st).2).1
          = Outcome.ret c none := by rw [h1, hc]
      refine ⟨hout, ?_⟩
      have := GetClient_lookup_self env2 protocol service (GetClient env protocol service st).2
      rw [hself, hout] at this
      exact this

/-- Instance of C4: `GetClient(grpc, svc)` fails at program start in `sampleEnv`. -/
theorem failed_GetClient_caches_nothing_witness :
    (GetClient sampleEnv "grpc" "svc" State.init).1 =
      Outcome.ret ProtocolClient.nil (some (unsupportedError "grpc")) ∧
    (GetClient sampleEnv "grpc" "svc" State.init).2.lookup "grpc" "svc" = none :=
  ⟨by simp [GetClient, State.ensureMap, State.init, State.insertMap, GoMap.empty, CreateClient,
      sampleEnv, State.emit],
   (failed_GetClient_caches_nothing sampleEnv "grpc" "svc" State.init ProtocolClient.nil
      (unsupportedError "grpc")
      (by simp [GetClient, State.ensureMap, State.init, State.insertMap, GoMap.empty,
        CreateClient, sampleEnv, State.emit])).2.2.1⟩

/-- C6: with a registered factory, if the TLS resolver returns an error that is not the
"no SSL configuration exists" signal, `CreateClient` returns the nil client and exactly
that error, and its events contain no constructor call; a `GetClient` call that runs
into this (the key is not cached) returns the nil client and that error, leaves the key
uncached and adds no client to the cache. -/
theorem tls_error_aborts_creation (env : Env) (protocol service : String)
    (f : NewFunc) (err : GoError)
    (hreg : env.GetClientNewFunc protocol = some f)
    (herr : (env.GetTLSConfigByService service protocol env.Consumer).err = some err)
    (hsig : env.IsSSLConfigNotExist err = false) :
    (∀ hist, CreateClient env protocol service hist =
      (Outcome.ret ProtocolClient.nil (some err),
        [Event.getClientNewFunc protocol,
          Event.getTLSConfigByService service protocol env.Consumer])) ∧
    (∀ hist, ∀ e ∈ (CreateClient env protocol service hist).2,
      Event.isConstruct e = false) ∧
    (∀ st : State, st.lookup protocol service = none →
      (GetClient env protocol service st).1 = Outcome.ret ProtocolClient.nil (some err) ∧
      (GetClient env protocol service st).2.lookup protocol service = none ∧
      (∀ p' s' c, (GetClient env protocol service st).2.lookup p' s' = some c →
        st.lookup p' s' = some c) ∧
      ∃ evs, (GetClient env protocol service st).2.trace = st.trace ++ evs ∧
        ∀ e ∈ evs, Event.isConstruct e = false) := by
  have hc : ∀ hist, CreateClient env protocol service hist =
      (Outcome.ret ProtocolClient.nil (some err),
        [Event.getClientNewFunc protocol,
          Event.getTLSConfigByService service protocol env.Consumer]) := by
    intro hist
    simp [CreateClient, hreg, herr, hsig]
  refine ⟨hc, ?_, ?_⟩
  · intro hist e he
    rw [hc] at he
    simp at he
    rcases he with rfl | rfl <;> simp [Event.isConstruct]
  · intro st hst
    obtain ⟨h1, -⟩ := GetClient_miss env protocol service st hst
    have hout : (GetClient env protocol service st).1 =
        Outcome.ret ProtocolClient.nil (some err) := by rw [h1, hc]
    have hno : ∀ c, (GetClient env protocol service st).1 ≠ Outcome.ret c none := by
      intro c hcc
      rw [hout] at hcc
      simp at hcc
    obtain ⟨-, hself, hothers⟩ := GetClient_not_ok env protocol service st hno
    refine ⟨hout, hself, hothers, ?_⟩
    obtain ⟨l, hl, hl2⟩ := trace_beforeCreate st protocol service
    refine ⟨l ++ [Event.getClientNewFunc protocol,
      Event.getTLSConfigByService service protocol env.Consumer], ?_, ?_⟩
    · rw [GetClient_miss_trace env protocol service st hst, hc, hl]
      simp
    · intro e he
      simp at he
      rcases he with he | rfl | rfl
      · exact (hl2 e he).1
      · simp [Event.isConstruct]
      · simp [Event.isConstruct]

/-- Instance of C6: TLS resolution fails for the service `broken` in `sampleEnv`. -/
theorem tls_error_aborts_creation_witness :
    sampleEnv.GetClientNewFunc "rest" = some freshClient ∧
    (sampleEnv.GetTLSConfigByService "broken" "rest" sampleEnv.Consumer).err
      = some ⟨"read cert failed"⟩ ∧
    sampleEnv.IsSSLConfigNotExist ⟨"read cert failed"⟩ = false ∧
    (GetClient sampleEnv "rest" "broken" State.init).1 =
      Outcome.ret ProtocolClient.nil (some ⟨"read cert failed"⟩) ∧
    (GetClient sampleEnv "rest" "broken" State.init).2.lookup "rest" "broken" = none :=
  ⟨by simp [sampleEnv], by simp [sampleEnv], by simp [sampleEnv],
    ((tls_error_aborts_creation sampleEnv "rest" "broken" freshClient ⟨"read cert failed"⟩
      (by simp [sampleEnv]) (by simp [sampleEnv]) (by simp [sampleEnv])).2.2
        State.init rfl).1,
    ((tls_error_aborts_creation sampleEnv "rest" "broken" freshClient ⟨"read cert failed"⟩
      (by simp [sampleEnv]) (by simp [sampleEnv]) (by simp [sampleEnv])).2.2
        State.init rfl).2.1⟩

/-- C7: every constructor call made by `CreateClient` receives `Options` whose `PoolSize`
is `DefaultPoolSize`, which is 50, and whose `PoolTTL` is zero, and `CreateClient` then
returns exactly the result of that constructor call with a nil error. -/
theorem constructor_gets_default_pool (env : Env) (protocol service : String)
    (hist : List Event) (q : String) (o : Options)
    (h : Event.newClient q o ∈ (CreateClient env protocol service hist).2) :
    o.PoolSize = DefaultPoolSize ∧ DefaultPoolSize = 50 ∧ o.PoolTTL = 0 ∧
    ∃ f pre, env.GetClientNewFunc protocol = some f ∧
      CreateClient env protocol service hist =
        (Outcome.ret (f o (hist ++ pre)) none, pre ++ [Event.newClient protocol o]) := by
  obtain ⟨f, pre, hf, -, ho, -, heq⟩ := CreateClient_newClient env protocol service hist q o h
  refine ⟨by rw [ho]; rfl, rfl, by rw [ho]; rfl, f, pre, hf, heq⟩

/-- Instance of C7: creation for the service `secure`, for which TLS is configured. -/
theorem constructor_gets_default_pool_witness :
    Event.newClient "rest" (newOptions sampleEnv "rest" (some 7)) ∈
      (CreateClient sampleEnv "rest" "secure" []).2 ∧
    (newOptions sampleEnv "rest" (some 7)).PoolSize = 50 ∧
    (newOptions sampleEnv "rest" (some 7)).PoolTTL = 0 :=
  ⟨by simp [CreateClient, sampleEnv],
    (constructor_gets_default_pool sampleEnv "rest" "secure" [] "rest"
      (newOptions sampleEnv "rest" (some 7)) (by simp [CreateClient, sampleEnv])).1,
    (constructor_gets_default_pool sampleEnv "rest" "secure" [] "rest"
      (newOptions sampleEnv "rest" (some 7)) (by simp [CreateClient, sampleEnv])).2.2.1⟩

theorem intercalate_one (sep x : List Char) : List.intercalate sep [x] = x := by
  simp [List.intercalate, List.intersperse]

theorem intercalate_two (sep x y : List Char) (r : List (List Char)) :
    List.intercalate sep (x :: y :: r) = x ++ sep ++ List.intercalate sep (y :: r) := by
  simp [List.intercalate, List.intersperse]

theorem splitChars_of_no_sep (sep : Char) (l : List Char) (h : sep ∉ l) :
    splitChars sep l = [l] := by
  induction l with
  | nil => rfl
  | cons c cs ih =>
    simp only [List.mem_cons, not_or] at h
    unfold splitChars
    rw [if_neg (fun e => h.1 e.symm), ih h.2]

/-- The pieces are determined by the input: a non-empty list of separator-free pieces
whose join is the input is the result of `splitChars`. -/
theorem splitChars_unique (sep : Char) (l : List Char) (ps : List (List Char))
    (hne : ps ≠ []) (hfree : ∀ p ∈ ps, sep ∉ p) (hjoin : List.intercalate [sep] ps = l) :
    splitChars sep l = ps := by
  induction l generalizing ps with
  | nil =>
    cases ps with
    | nil => exact absurd rfl hne
    | cons x r =>
      cases r with
      | nil =>
        rw [intercalate_one] at hjoin
        subst hjoin
        rfl
      | cons y r => simp [intercalate_two] at hjoin
  | cons c cs ih =>
    cases ps with
    | nil => exact absurd rfl hne
    | cons x r =>
      cases r with
      | nil =>
        rw [intercalate_one] at hjoin
        subst hjoin
        exact splitChars_of_no_sep sep _ (hfree _ (by simp))
      | cons y r =>
        rw [intercalate_two] at hjoin
        cases x with
        | nil =>
          simp only [List.nil_append, List.singleton_append, List.cons.injEq] at hjoin
          obtain ⟨hc, hcs⟩ := hjoin
          unfold splitChars
          rw [if_pos hc.symm]
          rw [ih (y :: r) (by simp) (fun p hp => hfree p (by simp [hp])) hcs]
        | cons a x =>
          simp only [List.cons_append, List.cons.injEq] at hjoin
          obtain ⟨hc, hcs⟩ := hjoin
          subst hc
          have ha : sep ∉ a :: x := hfree _ (by simp)
          simp only [List.mem_cons, not_or] at ha
          have hrec := ih (x :: y :: r) (by simp) (fun p hp => by
            simp only [List.mem_cons] at hp
            rcases hp with rfl | hp
            · exact ha.2
            · exact hfree p (by simp only [List.mem_cons]; exact Or.inr hp))
            (by rw [intercalate_two]; simpa using hcs)
          unfold splitChars
          rw [if_neg (fun e => ha.1 e.symm), hrec]

theorem Split_data (f : String) : (Split f).map String.data = splitChars ',' f.data := by
  simp [Split, List.map_map, Function.comp_def]

/-- The pieces of `Split f`, joined with commas, give `f` back, and no piece contains a
comma: `Split` cuts `f` at every comma and nowhere else. -/
theorem Split_spec (f : String) :
    List.intercalate [','] ((Split f).map String.data) = f.data ∧
    ∀ t ∈ Split f, ',' ∉ t.data := by
  constructor
  · rw [Split_data, splitChars_intercalate]
  · intro t ht
    have : t.data ∈ (Split f).map String.data := List.mem_map_of_mem _ ht
    rw [Split_data] at this
    exact splitChars_no_sep ',' f.data _ this

/-- The list `Split f` is the only way to cut `f` into comma-free pieces separated by
commas. -/
theorem Split_unique (f : String) (ps : List String) (hne : ps ≠ [])
    (hfree : ∀ t ∈ ps, ',' ∉ t.data)
    (hjoin : List.intercalate [','] (ps.map String.data) = f.data) : Split f = ps := by
  have := splitChars_unique ',' f.data (ps.map String.data) (by simpa using hne)
    (by
      intro p hp
      obtain ⟨t, ht, rfl⟩ := List.mem_map.1 hp
      exact hfree t ht) hjoin
  unfold Split
  rw [this]
  simp [List.map_map, Function.comp_def]

/-- C2: the `Failure` map of the `Options` that `CreateClient` passes to the constructor
maps a token to `true` exactly when the token is non-empty and is one of the pieces of
the protocol's failure string cut at its commas (`Split`: the one list of comma-free
pieces whose join with commas is the string); it maps no other token to anything, never
contains the empty string, is empty for the strings `""` and `","`, and is `{a,b,c}` for
`"a,b,c"` and `{a,b}` for `"a,,b"`. -/
theorem failure_set_of_constructor_options (env : Env) (protocol service : String)
    (hist : List Event) (q : String) (o : Options)
    (h : Event.newClient q o ∈ (CreateClient env protocol service hist).2) :
    (∀ t, o.Failure t = some true ↔
      t ≠ "" ∧ t ∈ Split (env.Protocols protocol).Failure) ∧
    (∀ t, o.Failure t = some true ∨ o.Failure t = none) ∧
    o.Failure "" = none ∧
    (List.intercalate [','] ((Split (env.Protocols protocol).Failure).map String.data)
        = (env.Protocols protocol).Failure.data ∧
      ∀ t ∈ Split (env.Protocols protocol).Failure, ',' ∉ t.data) ∧
    (∀ ps : List String, ps ≠ [] → (∀ t ∈ ps, ',' ∉ t.data) →
      List.intercalate [','] (ps.map String.data) = (env.Protocols protocol).Failure.data →
      Split (env.Protocols protocol).Failure = ps) ∧
    ((env.Protocols protocol).Failure = "" → ∀ t, o.Failure t = none) ∧
    ((env.Protocols protocol).Failure = "," → ∀ t, o.Failure t = none) ∧
    ((env.Protocols protocol).Failure = "a,b,c" →
      ∀ t, o.Failure t = some true ↔ t = "a" ∨ t = "b" ∨ t = "c") ∧
    ((env.Protocols protocol).Failure = "a,,b" →
      ∀ t, o.Failure t = some true ↔ t = "a" ∨ t = "b") := by
  obtain ⟨f, pre, -, -, ho, -, -⟩ := CreateClient_newClient env protocol service hist q o h
  have hF : o.Failure = failureMap (env.Protocols protocol).Failure := by rw [ho]; rfl
  rw [hF]
  refine ⟨failureMap_true_iff _, failureMap_true_or_none _, ?_, Split_spec _,
    Split_unique _, ?_, ?_, ?_, ?_⟩
  · exact failureMap_eq_none _ _ (by simp)
  · intro hf t
    apply failureMap_eq_none
    rw [hf]
    have : Split "" = [""] := by decide
    rw [this]
    simp
  · intro hf t
    apply failureMap_eq_none
    rw [hf]
    have : Split "," = ["", ""] := by decide
    rw [this]
    simp
  · intro hf t
    rw [failureMap_true_iff, hf]
    have : Split "a,b,c" = ["a", "b", "c"] := by decide
    rw [this]
    simp
    rintro (rfl | rfl | rfl) <;> decide
  · intro hf t
    rw [failureMap_true_iff, hf]
    have : Split "a,,b" = ["a", "", "b"] := by decide
    rw [this]
    simp
    constructor
    · rintro ⟨h1, h2 | h2 | h2⟩
      · exact Or.inl h2
      · exact absurd h2 h1
      · exact Or.inr h2
    · rintro (rfl | rfl)
      · exact ⟨by decide, Or.inl rfl⟩
      · exact ⟨by decide, Or.inr (Or.inr rfl)⟩

/-- Instance of C2: the failure string of `rest` in `sampleEnv` is `a,,b`. -/
theorem failure_set_of_constructor_options_witness :
    Event.newClient "rest" (newOptions sampleEnv "rest" none) ∈
      (CreateClient sampleEnv "rest" "svc" []).2 ∧
    (sampleEnv.Protocols "rest").Failure = "a,,b" ∧
    ∀ t, (newOptions sampleEnv "rest" none).Failure t = some true ↔ t = "a" ∨ t = "b" :=
  ⟨by simp [CreateClient, sampleEnv], by simp [sampleEnv],
    (failure_set_of_constructor_options sampleEnv "rest" "svc" [] "rest"
      (newOptions sampleEnv "rest" none) (by simp [CreateClient, sampleEnv])).2.2.2.2.2.2.2.2
      (by simp [sampleEnv])⟩

/-- C8: in a well-formed cache state, a sequential call `GetClient(p, s)`, whatever its
outcome, keeps every key that maps to a client mapped to the same client; a key that maps
to a client afterwards either did so before or is `(p, s)` itself, which was then absent
before the call; and the state stays well formed. -/
theorem cache_entries_never_change (env : Env) (p s : String) (st : State) (hwf : st.WF) :
    (∀ p' s' c, st.lookup p' s' = some c →
      (GetClient env p s st).2.lookup p' s' = some c) ∧
    (∀ p' s' c, (GetClient env p s st).2.lookup p' s' = some c →
      st.lookup p' s' = some c ∨ (p' = p ∧ s' = s ∧ st.lookup p s = none)) ∧
    (GetClient env p s st).2.WF := by
  refine ⟨?_, ?_, WF_GetClient env p s st hwf⟩
  · intro p' s' c hc
    by_cases hk : p' = p ∧ s' = s
    · obtain ⟨rfl, rfl⟩ := hk
      rw [GetClient_lookup_self, hc]
    · rw [GetClient_lookup_other env p s st hwf p' s' hk, hc]
  · intro p' s' c hc
    by_cases hk : p' = p ∧ s' = s
    · obtain ⟨rfl, rfl⟩ := hk
      cases hl : st.lookup p' s' with
      | none => exact Or.inr ⟨rfl, rfl, rfl⟩
      | some c' =>
        rw [GetClient_lookup_self, hl] at hc
        exact Or.inl hc
    · rw [GetClient_lookup_other env p s st hwf p' s' hk] at hc
      exact Or.inl hc

/-- Instance of C8: after `GetClient(rest, a)` has cached instance 4, a call
`GetClient(rest, b)` leaves the key `(rest, a)` mapped to that instance. -/
theorem cache_entries_never_change_witness :
    (GetClient sampleEnv "rest" "a" State.init).2.WF ∧
    (GetClient sampleEnv "rest" "a" State.init).2.lookup "rest" "a" =
      some (ProtocolClient.ref 4) ∧
    (GetClient sampleEnv "rest" "b" (GetClient sampleEnv "rest" "a" State.init).2).2.lookup
      "rest" "a" = some (ProtocolClient.ref 4) :=
  ⟨WF_GetClient sampleEnv "rest" "a" State.init WF_init, by decide,
    (cache_entries_never_change sampleEnv "rest" "b" (GetClient sampleEnv "rest" "a" State.init).2
      (WF_GetClient sampleEnv "rest" "a" State.init WF_init)).1 "rest" "a"
      (ProtocolClient.ref 4) (by decide)⟩

theorem run_succ (env : Env) (n : Nat) (t : Thread) (st : State) :
    Thread.run env (n + 1) t st = Thread.run env n (t.step env st).1 (t.step env st).2 := rfl

theorem run_done (env : Env) (n : Nat) (p s : String) (o : Outcome) (k : Nat) (st : State) :
    Thread.run env n ⟨p, s, Pc.done o, k⟩ st = (⟨p, s, Pc.done o, k⟩, st) := by
  induction n with
  | zero => rfl
  | succ n ih => rw [run_succ]; exact ih

theorem step_start (env : Env) (p s : String) (k : Nat) (st : State) :
    Thread.step env ⟨p, s, Pc.start, k⟩ st =
      match st.clients p with
      | some m => (⟨p, s, Pc.check m, k⟩, st)
      | none => (⟨p, s, Pc.insert, k⟩, st) := by
  simp only [Thread.step]

theorem step_insert (env : Env) (p s : String) (k : Nat) (st : State) :
    Thread.step env ⟨p, s, Pc.insert, k⟩ st =
      (⟨p, s, Pc.check (st.insertMap p).1, k⟩, (st.insertMap p).2) := rfl

theorem step_check (env : Env) (p s : String) (k m : Nat) (st : State) :
    Thread.step env ⟨p, s, Pc.check m, k⟩ st =
      match st.heap m s with
      | some c => (⟨p, s, Pc.done (Outcome.ret c none), k⟩, st)
      | none => (⟨p, s, Pc.create m, k⟩, st) := by
  simp only [Thread.step]

theorem step_create (env : Env) (p s : String) (k m : Nat) (st : State) :
    Thread.step env ⟨p, s, Pc.create m, k⟩ st =
      match env.GetClientNewFunc p with
      | none =>
        (⟨p, s, Pc.done (Outcome.ret ProtocolClient.nil (some (unsupportedError p))), k⟩,
          st.emit [Event.logInfo ("Create client for " ++ s), Event.getClientNewFunc p,
            Event.logError "" (unsupportedError p)])
      | some f =>
        (⟨p, s, Pc.resolve m f, k⟩,
          st.emit [Event.logInfo ("Create client for " ++ s), Event.getClientNewFunc p]) := by
  simp only [Thread.step]
  split <;> simp [State.emit]

theorem step_resolve (env : Env) (p s : String) (k m : Nat) (f : NewFunc) (st : State) :
    Thread.step env ⟨p, s, Pc.resolve m f, k⟩ st =
      match (env.GetTLSConfigByService s p env.Consumer).err with
      | some err =>
        if env.IsSSLConfigNotExist err = true then
          (⟨p, s, Pc.build m f (env.GetTLSConfigByService s p env.Consumer).tlsConfig, k⟩,
            st.emit [Event.getTLSConfigByService s p env.Consumer])
        else
          (⟨p, s, Pc.done (Outcome.ret ProtocolClient.nil (some err)), k⟩,
            st.emit [Event.getTLSConfigByService s p env.Consumer])
      | none =>
        match (env.GetTLSConfigByService s p env.Consumer).sslConfig with
        | none =>
          (⟨p, s, Pc.done Outcome.panic, k⟩,
            st.emit [Event.getTLSConfigByService s p env.Consumer])
        | some ssl =>
          (⟨p, s, Pc.build m f (env.GetTLSConfigByService s p env.Consumer).tlsConfig, k⟩,
            st.emit [Event.getTLSConfigByService s p env.Consumer,
              Event.logWarn (tlsWarning p s ssl)]) := by
  simp only [Thread.step]
  split
  · split <;> simp_all
  · split <;> simp [State.emit]

theorem step_build (env : Env) (p s : String) (k m : Nat) (f : NewFunc) (cfg : Option Nat)
    (st : State) :
    Thread.step env ⟨p, s, Pc.build m f cfg, k⟩ st =
      (⟨p, s, Pc.store m (f (newOptions env p cfg) st.trace), k + 1⟩,
        st.emit [Event.newClient p (newOptions env p cfg)]) := rfl

theorem step_store (env : Env) (p s : String) (k m : Nat) (c : ProtocolClient) (st : State) :
    Thread.step env ⟨p, s, Pc.store m c, k⟩ st =
      (⟨p, s, Pc.done (Outcome.ret c none), k⟩, st.store m s c) := rfl

theorem step_done (env : Env) (p s : String) (k : Nat) (o : Outcome) (st : State) :
    Thread.step env ⟨p, s, Pc.done o, k⟩ st = (⟨p, s, Pc.done o, k⟩, st) := rfl

/-- A thread that has read its service map and runs alone completes the call as
`GetClient` does after `ensureMap`. -/
theorem run_from_check (env : Env) (p s : String) (n k m : Nat) (st : State) :
    ∃ k', Thread.run env (n + 5) ⟨p, s, Pc.check m, k⟩ st =
      (⟨p, s, Pc.done (match st.heap m s with
          | some c => Outcome.ret c none
          | none => (CreateClient env p s
              (st.emit [Event.logInfo ("Create client for " ++ s)]).trace).1), k'⟩,
        match st.heap m s with
        | some _ => st
        | none =>
          match CreateClient env p s
              (st.emit [Event.logInfo ("Create client for " ++ s)]).trace with
          | (Outcome.ret c none, evs) =>
            ((st.emit [Event.logInfo ("Create client for " ++ s)]).emit evs).store m s c
          | (_, evs) => (st.emit [Event.logInfo ("Create client for " ++ s)]).emit evs) := by
  rw [run_succ, step_check]
  cases hh : st.heap m s with
  | some c => exact ⟨k, by simp only; rw [run_done]⟩
  | none =>
    simp only
    rw [run_succ, step_create]
    unfold CreateClient
    cases hf : env.GetClientNewFunc p with
    | none => exact ⟨k, by simp only; rw [run_done]; simp [State.emit]⟩
    | some f =>
      simp only
      rw [run_succ, step_resolve]
      cases he : (env.GetTLSConfigByService s p env.Consumer).err with
      | some err =>
        simp only
        cases hn : env.IsSSLConfigNotExist err with
        | true =>
          refine ⟨k + 1, ?_⟩
          simp only [if_true, Bool.not_true, Bool.false_eq_true, if_false]
          rw [run_succ, step_build, run_succ, step_store, run_done]
          simp [State.emit, State.store]
        | false =>
          refine ⟨k, ?_⟩
          simp only [Bool.false_eq_true, if_false, Bool.not_false, if_true]
          rw [run_done]
          simp [State.emit]
      | none =>
        simp only
        cases hs : (env.GetTLSConfigByService s p env.Consumer).sslConfig with
        | none => exact ⟨k, by simp only; rw [run_done]; simp [State.emit]⟩
        | some ssl =>
          refine ⟨k + 1, ?_⟩
          simp only
          rw [run_succ, step_build, run_succ, step_store, run_done]
          simp [State.emit, State.store]

/-- Running one thread alone for seven steps is a sequential call of `GetClient`: the
thread finishes with the outcome of `GetClient` in the state `GetClient` produces. -/
theorem Thread_run_eq_GetClient (env : Env) (p s : String) (st : State) :
    ∃ k, Thread.run env 7 (Thread.new p s) st =
      (⟨p, s, Pc.done (GetClient env p s st).1, k⟩, (GetClient env p s st).2) := by
  have key : ∀ n, ∃ k, Thread.run env (n + 5) ⟨p, s, Pc.check (st.ensureMap p).1, 0⟩
      (st.ensureMap p).2 =
      (⟨p, s, Pc.done (GetClient env p s st).1, k⟩, (GetClient env p s st).2) := by
    intro n
    obtain ⟨k, hk⟩ := run_from_check env p s n 0 (st.ensureMap p).1 (st.ensureMap p).2
    refine ⟨k, ?_⟩
    rw [hk, ensureMap_heap]
    cases hl : st.lookup p s with
    | some c =>
      rw [GetClient_hit env p s st c hl]
      have : (st.ensureMap p).2 = st := by
        unfold State.lookup at hl
        unfold State.ensureMap
        cases hc : st.clients p with
        | none => simp [hc] at hl
        | some m => rfl
      simp only [this]
    | none =>
      obtain ⟨h1, h2⟩ := GetClient_miss env p s st hl
      rw [h1, h2]
      simp only [State.beforeCreate]
      generalize CreateClient env p s
        ((st.ensureMap p).2.emit [Event.logInfo ("Create client for " ++ s)]).trace = r
      obtain ⟨o, evs⟩ := r
      cases o with
      | panic => rfl
      | ret c e =>
        cases e with
        | none => rfl
        | some e => rfl
  unfold Thread.new
  rw [run_succ, step_start]
  cases hc : st.clients p with
  | some m =>
    simp only
    simpa [State.ensureMap, hc] using key 1
  | none =>
    simp only
    rw [run_succ, step_insert]
    simpa [State.ensureMap, hc] using key 0

theorem callsOK_le (t : Thread) (h : t.callsOK) : t.calls ≤ 1 := by
  obtain ⟨p, s, pc, k⟩ := t
  cases pc <;> simp [Thread.callsOK] at h ⊢ <;> omega

theorem callsOK_new (p s : String) : (Thread.new p s).callsOK := by
  simp [Thread.callsOK, Thread.new]

/-- One step of a thread keeps its key and keeps the ghost counter in step with the
program point. -/
theorem step_callsOK (env : Env) (t : Thread) (st : State) (h : t.callsOK) :
    (t.step env st).1.callsOK ∧ (t.step env st).1.protocol = t.protocol ∧
    (t.step env st).1.service = t.service := by
  obtain ⟨p, s, pc, k⟩ := t
  cases pc with
  | start => rw [step_start]; split <;> simp_all [Thread.callsOK]
  | insert => rw [step_insert]; simp_all [Thread.callsOK]
  | check m => rw [step_check]; split <;> simp_all [Thread.callsOK]
  | create m => rw [step_create]; split <;> simp_all [Thread.callsOK]
  | resolve m f =>
    rw [step_resolve]
    split
    · split <;> simp_all [Thread.callsOK]
    · split <;> simp_all [Thread.callsOK]
  | build m f cfg => rw [step_build]; simp_all [Thread.callsOK]
  | store m c => rw [step_store]; simp_all [Thread.callsOK]
  | done o => rw [step_done]; simp_all [Thread.callsOK]

/-- The ghost counter counts the constructor events the thread adds to the trace. -/
theorem step_constructorCalls (env : Env) (t : Thread) (st : State) :
    constructorCalls t.protocol (t.step env st).2.trace + t.calls =
      constructorCalls t.protocol st.trace + (t.step env st).1.calls := by
  obtain ⟨p, s, pc, k⟩ := t
  cases pc with
  | start => rw [step_start]; split <;> rfl
  | insert =>
    rw [step_insert]
    simp [State.insertMap, constructorCalls, List.filter_append, Event.isNewClient]
  | check m => rw [step_check]; split <;> rfl
  | create m =>
    rw [step_create]
    split <;> simp [State.emit, constructorCalls, List.filter_append, Event.isNewClient]
  | resolve m f =>
    rw [step_resolve]
    split
    · split <;> simp [State.emit, constructorCalls, List.filter_append, Event.isNewClient]
    · split <;> simp [State.emit, constructorCalls, List.filter_append, Event.isNewClient]
  | build m f cfg =>
    rw [step_build]
    simp [State.emit, constructorCalls, List.filter_append, Event.isNewClient]
    omega
  | store m c => rw [step_store]; rfl
  | done o => rw [step_done]

theorem totalCalls_set (ts : List Thread) (i : Nat) (t t1 : Thread)
    (h : ts[i]? = some t) : totalCalls (ts.set i t1) + t.calls = totalCalls ts + t1.calls := by
  induction ts generalizing i with
  | nil => simp at h
  | cons a as ih =>
    cases i with
    | zero =>
      simp at h
      subst h
      simp [totalCalls]
      omega
    | succ j =>
      simp at h
      have := ih j h
      simp [totalCalls]
      omega

/-- In every schedule every thread keeps its key and calls a constructor at most once,
and the constructor events in the trace are exactly the calls counted by the threads. -/
theorem run_calls (env : Env) (p : String) (sched : List Nat) (sys : System)
    (h : ∀ t ∈ sys.threads, t.callsOK ∧ t.protocol = p) :
    (∀ t ∈ (sys.run env sched).threads, t.callsOK ∧ t.protocol = p) ∧
    (sys.run env sched).threads.length = sys.threads.length ∧
    constructorCalls p (sys.run env sched).st.trace + totalCalls sys.threads =
      constructorCalls p sys.st.trace + totalCalls (sys.run env sched).threads := by
  induction sched generalizing sys with
  | nil => exact ⟨h, rfl, rfl⟩
  | cons i is ih =>
    simp only [System.run, List.foldl_cons]
    have hstep : (∀ t ∈ (sys.step env i).threads, t.callsOK ∧ t.protocol = p) ∧
        (sys.step env i).threads.length = sys.threads.length ∧
        constructorCalls p (sys.step env i).st.trace + totalCalls sys.threads =
          constructorCalls p sys.st.trace + totalCalls (sys.step env i).threads := by
      unfold System.step
      cases hi : sys.threads[i]? with
      | none => exact ⟨h, rfl, rfl⟩
      | some t =>
        have ht := h t (List.getElem?_mem hi)
        obtain ⟨h1, h2, -⟩ := step_callsOK env t sys.st ht.1
        refine ⟨?_, by simp, ?_⟩
        · intro u hu
          rcases List.mem_or_eq_of_mem_set hu with hu | rfl
          · exact h u hu
          · exact ⟨h1, by rw [h2, ht.2]⟩
        · have e1 := step_constructorCalls env t sys.st
          have e2 := totalCalls_set sys.threads i t (t.step env sys.st).1 hi
          rw [ht.2] at e1
          simp only
          omega
    obtain ⟨a1, a2, a3⟩ := hstep
    obtain ⟨b1, b2, b3⟩ := ih (sys.step env i) a1
    refine ⟨b1, by rw [← a2]; exact b2, ?_⟩
    simp only [System.run] at b3 ⊢
    omega

/-- If `CreateClient` succeeds, a factory is registered and the TLS resolution proceeds. -/
theorem CreateClient_ok_env (env : Env) (p s : String) (hist : List Event) (c : ProtocolClient)
    (h : (CreateClient env p s hist).1 = Outcome.ret c none) :
    ∃ f, env.GetClientNewFunc p = some f ∧ env.tlsProceeds p s = true := by
  unfold CreateClient at h
  unfold Env.tlsProceeds
  cases hf : env.GetClientNewFunc p with
  | none => simp [hf] at h
  | some f =>
    refine ⟨f, rfl, ?_⟩
    simp only [hf] at h
    cases he : (env.GetTLSConfigByService s p env.Consumer).err with
    | some err =>
      simp only [he] at h ⊢
      cases hn : env.IsSSLConfigNotExist err with
      | true => rfl
      | false => simp [hn] at h
    | none =>
      simp only [he] at h ⊢
      cases hs : (env.GetTLSConfigByService s p env.Consumer).sslConfig with
      | none => simp [hs] at h
      | some ssl => rfl

/-- One step of a thread looking up `(p, s)` in the registered map `m0`, when creation
for `(p, s)` cannot fail. -/
theorem step_uses (env : Env) (p s : String) (m0 : Nat) (f : NewFunc)
    (hreg : env.GetClientNewFunc p = some f) (htls : env.tlsProceeds p s = true)
    (t : Thread) (st : State) (hp : t.protocol = p) (hs : t.service = s)
    (hok : t.callsOK) (hu : t.uses m0) (hcl : st.clients p = some m0)
    (hfin : t.finished = true → st.heap m0 s ≠ none) :
    (t.step env st).2.clients p = some m0 ∧
    (t.step env st).1.uses m0 ∧
    (st.heap m0 s ≠ none → (t.step env st).2.heap m0 s ≠ none) ∧
    ((t.step env st).1.finished = true → (t.step env st).2.heap m0 s ≠ none) ∧
    ((t.step env st).2.heap m0 s ≠ none →
      st.heap m0 s ≠ none ∨ (t.step env st).1.calls = 1) ∧
    (t.calls = 1 → (t.step env st).1.calls = 1) := by
  obtain ⟨tp, ts, pc, k⟩ := t
  simp only at hp hs
  subst hp hs
  cases pc with
  | start =>
    rw [step_start, hcl]
    simp [Thread.uses, Thread.finished, hcl]
    tauto
  | insert => simp [Thread.uses] at hu
  | check m =>
    simp only [Thread.uses] at hu
    subst hu
    rw [step_check]
    cases hh : st.heap m ts with
    | none =>
      simp [Thread.uses, Thread.finished, hcl]
      tauto
    | some c => simp [Thread.uses, Thread.finished, hcl, hh]
  | create m =>
    simp only [Thread.uses] at hu
    subst hu
    rw [step_create, hreg]
    simp [Thread.uses, Thread.finished, hcl, State.emit]
    tauto
  | resolve m g =>
    simp only [Thread.uses] at hu
    subst hu
    rw [step_resolve]
    unfold Env.tlsProceeds at htls
    cases he : (env.GetTLSConfigByService ts tp env.Consumer).err with
    | some err =>
      simp only [he] at htls
      simp [Thread.uses, Thread.finished, hcl, State.emit, htls]
      tauto
    | none =>
      simp only [he] at htls
      cases hsc : (env.GetTLSConfigByService ts tp env.Consumer).sslConfig with
      | none => simp [hsc] at htls
      | some ssl =>
        simp [Thread.uses, Thread.finished, hcl, State.emit]
        tauto
  | build m g cfg =>
    simp only [Thread.uses] at hu
    subst hu
    simp only [Thread.callsOK] at hok
    rw [step_build]
    simp [Thread.uses, Thread.finished, hcl, State.emit, hok]
  | store m c =>
    simp only [Thread.uses] at hu
    subst hu
    simp only [Thread.callsOK] at hok
    rw [step_store]
    simp [Thread.uses, Thread.finished, hcl, State.store, hok, GoMap.set]
  | done o =>
    rw [step_done]
    simp only [Thread.finished] at hfin
    simp [hcl, hu, hfin]

/-- The race invariant is preserved by every step of every thread. -/
theorem RaceInv_step (env : Env) (p s : String) (m0 : Nat) (f : NewFunc)
    (hreg : env.GetClientNewFunc p = some f) (htls : env.tlsProceeds p s = true)
    (sys : System) (i : Nat) (h : RaceInv p s m0 sys) : RaceInv p s m0 (sys.step env i) := by
  unfold System.step
  cases hi : sys.threads[i]? with
  | none => exact h
  | some t =>
    obtain ⟨hcl, hall, hsome⟩ := h
    obtain ⟨hp, hs, hok, hu, hfin⟩ := hall t (List.getElem?_mem hi)
    obtain ⟨a1, a2, a3, a4, a5, a6⟩ :=
      step_uses env p s m0 f hreg htls t sys.st hp hs hok hu hcl hfin
    obtain ⟨b1, b2, b3⟩ := step_callsOK env t sys.st hok
    have hlen : i < sys.threads.length := by
      by_contra hcon
      rw [List.getElem?_eq_none (by omega)] at hi
      simp at hi
    refine ⟨a1, ?_, ?_⟩
    · intro u hu'
      rcases List.mem_or_eq_of_mem_set hu' with hu' | rfl
      · obtain ⟨c1, c2, c3, c4, c5⟩ := hall u hu'
        exact ⟨c1, c2, c3, c4, fun hf => a3 (c5 hf)⟩
      · exact ⟨by rw [b2, hp], by rw [b3, hs], b1, a2, a4⟩
    · intro hne
      rcases a5 hne with hold | hnew
      · obtain ⟨j, u, hj, hu1⟩ := hsome hold
        by_cases hij : i = j
        · subst hij
          rw [hi] at hj
          simp at hj
          subst hj
          exact ⟨i, _, by simp only; rw [List.getElem?_set_self hlen], a6 hu1⟩
        · exact ⟨j, u, by simp only; rw [List.getElem?_set_ne hij]; exact hj, hu1⟩
      · exact ⟨i, _, by simp only; rw [List.getElem?_set_self hlen], hnew⟩

theorem RaceInv_run (env : Env) (p s : String) (m0 : Nat) (f : NewFunc)
    (hreg : env.GetClientNewFunc p = some f) (htls : env.tlsProceeds p s = true)
    (sched : List Nat) (sys : System) (h : RaceInv p s m0 sys) :
    RaceInv p s m0 (sys.run env sched) := by
  induction sched generalizing sys with
  | nil => exact h
  | cons i is ih =>
    simp only [System.run, List.foldl_cons]
    exact ih _ (RaceInv_step env p s m0 f hreg htls sys i h)

theorem totalCalls_pos (ts : List Thread) (i : Nat) (t : Thread) (h : ts[i]? = some t) :
    t.calls ≤ totalCalls ts := by
  induction ts generalizing i with
  | nil => simp at h
  | cons a as ih =>
    cases i with
    | zero => simp at h; subst h; simp [totalCalls]
    | succ j =>
      simp at h
      have := ih j h
      simp [totalCalls]
      omega

theorem sys_run_cons (env : Env) (sys : System) (i : Nat) (is : List Nat) :
    sys.run env (i :: is) = (sys.step env i).run env is := rfl

theorem sys_run_nil (env : Env) (sys : System) : sys.run env [] = sys := rfl

theorem sys_step_zero (env : Env) (st : State) (a b : Thread) :
    System.step env ⟨st, [a, b]⟩ 0 = ⟨(a.step env st).2, [(a.step env st).1, b]⟩ := rfl

theorem sys_step_one (env : Env) (st : State) (a b : Thread) :
    System.step env ⟨st, [a, b]⟩ 1 = ⟨(b.step env st).2, [a, (b.step env st).1]⟩ := rfl

theorem GoMap_set_set {V : Type} (m : GoMap V) (k : String) (a b : V) :
    (m.set k a).set k b = m.set k b := by
  funext x
  by_cases h : x = k <;> simp [GoMap.set, h]

/-- The TLS step of a thread when the resolution proceeds. -/
theorem step_resolve_proceeds (env : Env) (p s : String) (k m : Nat) (f : NewFunc)
    (st : State) (htls : env.tlsProceeds p s = true) :
    Thread.step env ⟨p, s, Pc.resolve m f, k⟩ st =
      (⟨p, s, Pc.build m f (env.GetTLSConfigByService s p env.Consumer).tlsConfig, k⟩,
        st.emit (env.tlsEvents p s)) := by
  rw [step_resolve]
  unfold Env.tlsProceeds at htls
  unfold Env.tlsEvents
  cases he : (env.GetTLSConfigByService s p env.Consumer).err with
  | some err =>
    simp only [he] at htls
    simp [htls]
  | none =>
    simp only [he] at htls
    cases hsc : (env.GetTLSConfigByService s p env.Consumer).sslConfig with
    | none => simp [hsc] at htls
    | some ssl => rfl

/-- The value of `CreateClient` when a factory is registered and the TLS resolution
proceeds. -/
theorem CreateClient_proceeds (env : Env) (p s : String) (hist : List Event) (f : NewFunc)
    (hreg : env.GetClientNewFunc p = some f) (htls : env.tlsProceeds p s = true) :
    CreateClient env p s hist =
      (Outcome.ret (f (newOptions env p (env.GetTLSConfigByService s p env.Consumer).tlsConfig)
          (hist ++ (Event.getClientNewFunc p :: env.tlsEvents p s))) none,
        Event.getClientNewFunc p :: env.tlsEvents p s ++
          [Event.newClient p
            (newOptions env p (env.GetTLSConfigByService s p env.Consumer).tlsConfig)]) := by
  unfold CreateClient
  unfold Env.tlsProceeds at htls
  unfold Env.tlsEvents
  simp only [hreg]
  cases he : (env.GetTLSConfigByService s p env.Consumer).err with
  | some err =>
    simp only [he] at htls
    simp [htls]
  | none =>
    simp only [he] at htls
    cases hsc : (env.GetTLSConfigByService s p env.Consumer).sslConfig with
    | none => simp [hsc] at htls
    | some ssl => simp

/-- The system after `raceUntilFirstStore` and after `raceSchedule`, when the service map
`m0` of the protocol is registered, the key is not cached and creation proceeds. -/
theorem race_run (env : Env) (p s : String) (m0 : Nat) (st : State) (f : NewFunc)
    (hcl : st.clients p = some m0) (hh : st.heap m0 s = none)
    (hreg : env.GetClientNewFunc p = some f) (htls : env.tlsProceeds p s = true)
    (o : Options) (pre tr : List Event) (c1 c2 : ProtocolClient)
    (ho : o = newOptions env p (env.GetTLSConfigByService s p env.Consumer).tlsConfig)
    (hpre : pre = Event.logInfo ("Create client for " ++ s) :: Event.getClientNewFunc p ::
        env.tlsEvents p s)
    (hc1 : c1 = f o (st.trace ++ pre))
    (hc2 : c2 = f o (st.trace ++ pre ++ [Event.newClient p o] ++ pre))
    (htr : tr = st.trace ++ pre ++ [Event.newClient p o] ++ pre ++ [Event.newClient p o]) :
    (twoCalls p s st).run env raceUntilFirstStore =
      ⟨{ st with heap := Function.update st.heap m0 ((st.heap m0).set s c1), trace := tr },
        [⟨p, s, Pc.done (Outcome.ret c1 none), 1⟩, ⟨p, s, Pc.store m0 c2, 1⟩]⟩ ∧
    (twoCalls p s st).run env raceSchedule =
      ⟨{ st with heap := Function.update st.heap m0 ((st.heap m0).set s c2), trace := tr },
        [⟨p, s, Pc.done (Outcome.ret c1 none), 1⟩,
          ⟨p, s, Pc.done (Outcome.ret c2 none), 1⟩]⟩ := by
  subst ho hpre hc1 hc2 htr
  constructor
  · simp only [twoCalls, raceUntilFirstStore, Thread.new, sys_run_cons, sys_run_nil]
    simp only [sys_step_zero, sys_step_one, step_start, hcl, step_check, hh, step_create, hreg,
      step_resolve_proceeds _ _ _ _ _ _ _ htls, step_build, step_store, State.emit,
      State.store]
    simp
  · simp only [twoCalls, raceSchedule, raceUntilFirstStore, Thread.new, List.cons_append,
      List.nil_append, sys_run_cons, sys_run_nil]
    simp only [sys_step_zero, sys_step_one, step_start, hcl, step_check, hh, step_create, hreg,
      step_resolve_proceeds _ _ _ _ _ _ _ htls, step_build, step_store, State.emit,
      State.store]
    simp [GoMap_set_set]

theorem RaceInv_twoCalls (p s : String) (m0 : Nat) (st : State)
    (hcl : st.clients p = some m0) (hh : st.heap m0 s = none) :
    RaceInv p s m0 (twoCalls p s st) := by
  refine ⟨hcl, ?_, fun h => absurd hh h⟩
  intro t ht
  simp [twoCalls] at ht
  subst ht
  simp [Thread.new, Thread.callsOK, Thread.uses, Thread.finished]

/-- C10: two threads enter `GetClient(p, s)` while the service map of `p` is registered
and `(p, s)` is not cached, and creation for `(p, s)` succeeds with a non-nil client.
Then the schedule `raceSchedule` is an interleaving in which both threads call the
constructor (two constructor events, one per thread), both return a non-nil client with
a nil error, the cache holds the client of thread 0 after its store and the client of
thread 1, stored last, at the end. In every interleaving no thread calls the constructor
more than once, the constructor events of the trace are exactly the calls of the
threads, and once both threads have finished there is at least one constructor event
and both have returned a nil error. -/
theorem concurrent_first_lookups_race (env : Env) (p s : String) (m0 : Nat) (st : State)
    (hcl : st.clients p = some m0) (hnew : st.lookup p s = none)
    (hok : ∀ hist, ∃ c, (CreateClient env p s hist).1 = Outcome.ret c none ∧
      c ≠ ProtocolClient.nil) :
    (∃ c1 c2, c1 ≠ ProtocolClient.nil ∧ c2 ≠ ProtocolClient.nil ∧
      ((twoCalls p s st).run env raceSchedule).threads.map Thread.outcome =
        [some (Outcome.ret c1 none), some (Outcome.ret c2 none)] ∧
      ((twoCalls p s st).run env raceSchedule).threads.map Thread.calls = [1, 1] ∧
      constructorCalls p ((twoCalls p s st).run env raceSchedule).st.trace =
        constructorCalls p st.trace + 2 ∧
      ((twoCalls p s st).run env raceUntilFirstStore).st.lookup p s = some c1 ∧
      ((twoCalls p s st).run env raceSchedule).st.lookup p s = some c2) ∧
    (∀ sched : List Nat,
      ((twoCalls p s st).run env sched).threads.length = 2 ∧
      (∀ t ∈ ((twoCalls p s st).run env sched).threads, t.calls ≤ 1) ∧
      constructorCalls p ((twoCalls p s st).run env sched).st.trace =
        constructorCalls p st.trace + totalCalls ((twoCalls p s st).run env sched).threads ∧
      ((∀ t ∈ ((twoCalls p s st).run env sched).threads, t.finished = true) →
        constructorCalls p st.trace + 1 ≤
          constructorCalls p ((twoCalls p s st).run env sched).st.trace ∧
        ∀ t ∈ ((twoCalls p s st).run env sched).threads,
          ∃ c, t.outcome = some (Outcome.ret c none))) := by
  obtain ⟨c0, hc0, -⟩ := hok []
  obtain ⟨f, hreg, htls⟩ := CreateClient_ok_env env p s [] c0 hc0
  have hh : st.heap m0 s = none := by simpa [State.lookup, hcl] using hnew
  have hnn : ∀ hist, f (newOptions env p (env.GetTLSConfigByService s p env.Consumer).tlsConfig)
      (hist ++ (Event.getClientNewFunc p :: env.tlsEvents p s)) ≠ ProtocolClient.nil := by
    intro hist
    obtain ⟨c, hc, hne⟩ := hok hist
    rw [CreateClient_proceeds env p s hist f hreg htls] at hc
    simp only [Outcome.ret.injEq, and_true] at hc
    rw [hc]
    exact hne
  constructor
  · obtain ⟨o, ho⟩ : ∃ o, o = newOptions env p
      (env.GetTLSConfigByService s p env.Consumer).tlsConfig := ⟨_, rfl⟩
    obtain ⟨pre, hpre⟩ : ∃ pre, pre = Event.logInfo ("Create client for " ++ s) ::
      Event.getClientNewFunc p :: env.tlsEvents p s := ⟨_, rfl⟩
    obtain ⟨c1, hc1⟩ : ∃ c1, c1 = f o (st.trace ++ pre) := ⟨_, rfl⟩
    obtain ⟨c2, hc2⟩ : ∃ c2, c2 = f o (st.trace ++ pre ++ [Event.newClient p o] ++ pre) :=
      ⟨_, rfl⟩
    obtain ⟨tr, htr⟩ : ∃ tr, tr = st.trace ++ pre ++ [Event.newClient p o] ++ pre ++
      [Event.newClient p o] := ⟨_, rfl⟩
    obtain ⟨e1, e2⟩ := race_run env p s m0 st f hcl hh hreg htls o pre tr c1 c2 ho hpre hc1
      hc2 htr
    have hpre0 : pre.filter (Event.isNewClient p) = [] := by
      rw [hpre]
      unfold Env.tlsEvents
      split
      · simp [Event.isNewClient]
      · split <;> simp [Event.isNewClient]
    refine ⟨c1, c2, ?_, ?_, ?_, ?_, ?_, ?_, ?_⟩
    · have := hnn (st.trace ++ [Event.logInfo ("Create client for " ++ s)])
      rw [hc1, ho, hpre]
      simpa using this
    · have := hnn (st.trace ++ pre ++ [Event.newClient p o] ++
        [Event.logInfo ("Create client for " ++ s)])
      rw [hc2, ho]
      rw [ho] at this
      nth_rewrite 2 [hpre]
      simpa using this
    · rw [e2]; rfl
    · rw [e2]; rfl
    · rw [e2, htr]
      simp [constructorCalls, List.filter_append, hpre0, Event.isNewClient]
    · rw [e1]
      simp [State.lookup, hcl, GoMap.set]
    · rw [e2]
      simp [State.lookup, hcl, GoMap.set]
  · intro sched
    have hinit : ∀ t ∈ (twoCalls p s st).threads, t.callsOK ∧ t.protocol = p := by
      intro t ht
      simp [twoCalls] at ht
      subst ht
      exact ⟨callsOK_new p s, rfl⟩
    obtain ⟨a1, a2, a3⟩ := run_calls env p sched (twoCalls p s st) hinit
    have hinv := RaceInv_run env p s m0 f hreg htls sched _ (RaceInv_twoCalls p s m0 st hcl hh)
    have htot : totalCalls (twoCalls p s st).threads = 0 := rfl
    have hst : (twoCalls p s st).st = st := rfl
    rw [htot, hst] at a3
    refine ⟨a2, fun t ht => callsOK_le t (a1 t ht).1, by omega, ?_⟩
    intro hfin
    obtain ⟨-, hall, hsome⟩ := hinv
    refine ⟨?_, ?_⟩
    · have hlen : 0 < ((twoCalls p s st).run env sched).threads.length := by
        rw [a2]; simp [twoCalls]
      have hmem := List.getElem_mem hlen
      obtain ⟨-, -, -, -, hcached⟩ := hall _ hmem
      obtain ⟨i, t, hi, ht1⟩ := hsome (hcached (hfin _ hmem))
      have := totalCalls_pos _ i t hi
      omega
    · intro t ht
      obtain ⟨-, -, -, hu, -⟩ := hall t ht
      have hf := hfin t ht
      obtain ⟨tp, ts, pc, k⟩ := t
      cases pc <;> simp [Thread.finished] at hf
      simpa [Thread.uses, Thread.outcome] using hu

/-- Instance of C10: two threads look up `(rest, svc)` after the service map of `rest` has
been registered; in `raceSchedule` they return the distinct instances 4 and 8. -/
theorem concurrent_first_lookups_race_witness :
    (State.init.insertMap "rest").2.clients "rest" = some 0 ∧
    (State.init.insertMap "rest").2.lookup "rest" "svc" = none ∧
    (∀ hist, ∃ c, (CreateClient sampleEnv "rest" "svc" hist).1 = Outcome.ret c none ∧
      c ≠ ProtocolClient.nil) ∧
    ((twoCalls "rest" "svc" (State.init.insertMap "rest").2).run sampleEnv
        raceSchedule).threads.map Thread.outcome =
      [some (Outcome.ret (ProtocolClient.ref 4) none),
        some (Outcome.ret (ProtocolClient.ref 8) none)] ∧
    ∀ sched : List Nat, ∀ t ∈ ((twoCalls "rest" "svc" (State.init.insertMap "rest").2).run
        sampleEnv sched).threads, t.calls ≤ 1 :=
  ⟨by decide, by decide, fun hist => by simp [CreateClient, sampleEnv, freshClient],
    by decide,
    fun sched => ((concurrent_first_lookups_race sampleEnv "rest" "svc" 0
      (State.init.insertMap "rest").2 (by decide) (by decide)
      (fun hist => by simp [CreateClient, sampleEnv, freshClient])).2 sched).2.1⟩

theorem WF_step (env : Env) (t : Thread) (st : State) (hwf : st.WF) : (t.step env st).2.WF := by
  obtain ⟨p, s, pc, k⟩ := t
  cases pc with
  | start => rw [step_start]; split <;> exact hwf
  | insert => rw [step_insert]; exact WF_insertMap st hwf p
  | check m => rw [step_check]; split <;> exact hwf
  | create m => rw [step_create]; split <;> exact hwf
  | resolve m f =>
    rw [step_resolve]
    split
    · split <;> exact hwf
    · split <;> exact hwf
  | build m f cfg => rw [step_build]; exact hwf
  | store m c => rw [step_store]; exact hwf
  | done o => rw [step_done]; exact hwf

/-- Well-formedness of the cache holds along every interleaving. -/
theorem WF_run (env : Env) (sched : List Nat) (sys : System) (hwf : sys.st.WF) :
    (sys.run env sched).st.WF := by
  induction sched generalizing sys with
  | nil => exact hwf
  | cons i is ih =>
    rw [sys_run_cons]
    apply ih
    unfold System.step
    cases hi : sys.threads[i]? with
    | none => exact hwf
    | some t => exact WF_step env t sys.st hwf

/-- C9, counterexample: two threads look up services `a` and `b` of the previously unseen
protocol `rest`. Both find no service map; thread 0 inserts one and stores its client
(instance 4) in it; then thread 1 inserts its own empty map, which replaces the map of
thread 0. Both calls return a client with a nil error, but the client that thread 0 stored
is still in the replaced map (reference 0) and no longer reachable through the
protocol-level map, and a later `GetClient` for its key returns another instance. -/
theorem insertion_race_loses_stored_client :
    (unseenProtocolCalls.run sampleEnv insertRaceSchedule).threads.map Thread.outcome =
      [some (Outcome.ret (ProtocolClient.ref 4) none),
        some (Outcome.ret (ProtocolClient.ref 9) none)] ∧
    (unseenProtocolCalls.run sampleEnv insertRaceSchedule).st.heap 0 "a" =
      some (ProtocolClient.ref 4) ∧
    (unseenProtocolCalls.run sampleEnv insertRaceSchedule).st.clients "rest" = some 1 ∧
    (unseenProtocolCalls.run sampleEnv insertRaceSchedule).st.lookup "rest" "a" = none ∧
    (GetClient sampleEnv "rest" "a"
      (unseenProtocolCalls.run sampleEnv insertRaceSchedule).st).1 =
        Outcome.ret (ProtocolClient.ref 13) none := by
  refine ⟨by decide, by decide, by decide, by decide, by decide⟩

/-- Effect of lines 84-88 on a well-formed state: the protocol gets a new empty service
map, everything else is untouched. -/
theorem insertMap_effect (st : State) (hwf : st.WF) (p : String) :
    (∀ s', (st.insertMap p).2.lookup p s' = none) ∧
    (∀ p' s', p' ≠ p → (st.insertMap p).2.lookup p' s' = st.lookup p' s') ∧
    (∀ m, m < st.next → (st.insertMap p).2.heap m = st.heap m) ∧
    (st.clients p = none → ∀ p' s', (st.insertMap p).2.lookup p' s' = st.lookup p' s') := by
  have h1 : ∀ s', (st.insertMap p).2.lookup p s' = none := by
    intro s'
    simp [State.insertMap, State.lookup, GoMap.set, GoMap.empty]
  have h3 : ∀ p' s', p' ≠ p → (st.insertMap p).2.lookup p' s' = st.lookup p' s' := by
    intro p' s' hne
    simp only [State.insertMap, State.lookup, GoMap.set, hne, if_false]
    cases hc : st.clients p' with
    | none => rfl
    | some m =>
      have := hwf.1 p' m hc
      have hm : m ≠ st.next := by omega
      simp [Function.update, hm]
  refine ⟨h1, h3, ?_, ?_⟩
  · intro m hm
    have : m ≠ st.next := by omega
    simp [State.insertMap, Function.update, this]
  · intro hnone p' s'
    by_cases hp : p' = p
    · subst hp
      rw [h1]
      simp [State.lookup, hnone]
    · exact h3 p' s' hp

theorem sys_run_append_one (env : Env) (sys : System) (sched : List Nat) (i : Nat) :
    sys.run env (sched ++ [i]) = (sys.run env sched).step env i := by
  simp [System.run, List.foldl_append]

/-- C9, amended: the step-1 insertion is unconditional. In every interleaving from a
well-formed state, when a thread executes the insertion, the protocol-level map holds
afterwards a new empty service map for the protocol of the thread: no service of that
protocol maps to a client any more, and a later `GetClient` for any of its keys runs
`CreateClient` again. The entries of other protocols are unchanged and the service maps
allocated before keep their contents. If no service map was registered for the protocol
when the insertion executed, no entry of the cache is lost; this is always so when lines
80-89 run without interference (`ensureMap`). -/
theorem insertion_replaces_registered_map (env : Env) (sys : System) (hwf : sys.st.WF)
    (sched : List Nat) (i : Nat) (t : Thread)
    (hi : (sys.run env sched).threads[i]? = some t) (hpc : t.pc = Pc.insert) :
    (∀ s', (sys.run env (sched ++ [i])).st.lookup t.protocol s' = none) ∧
    (∀ (env2 : Env) s', (GetClient env2 t.protocol s' (sys.run env (sched ++ [i])).st).1 =
      (CreateClient env2 t.protocol s'
        (((sys.run env (sched ++ [i])).st).beforeCreate t.protocol s').trace).1) ∧
    (∀ p' s', p' ≠ t.protocol →
      (sys.run env (sched ++ [i])).st.lookup p' s' = (sys.run env sched).st.lookup p' s') ∧
    (∀ m, m < (sys.run env sched).st.next →
      (sys.run env (sched ++ [i])).st.heap m = (sys.run env sched).st.heap m) ∧
    ((sys.run env sched).st.clients t.protocol = none →
      ∀ p' s', (sys.run env (sched ++ [i])).st.lookup p' s' =
        (sys.run env sched).st.lookup p' s') ∧
    (∀ p p' s', (((sys.run env sched).st).ensureMap p).2.lookup p' s' =
      (sys.run env sched).st.lookup p' s') := by
  have hwf1 := WF_run env sched sys hwf
  have hstep : (sys.run env (sched ++ [i])).st =
      ((sys.run env sched).st.insertMap t.protocol).2 := by
    rw [sys_run_append_one]
    unfold System.step
    rw [hi]
    obtain ⟨p, s, pc, k⟩ := t
    simp only at hpc
    subst hpc
    rfl
  rw [hstep]
  obtain ⟨h1, h2, h3, h4⟩ := insertMap_effect _ hwf1 t.protocol
  refine ⟨h1, ?_, h2, h3, h4, fun p p' s' => lookup_ensureMap _ hwf1 p p' s'⟩
  intro env2 s'
  exact (GetClient_miss env2 t.protocol s' _ (h1 s')).1

/-- Instance of the amended C9: in the schedule of the counterexample, thread 1 is about
to insert after thread 0 has stored its client; before the insertion the key of
thread 0 maps to that client, after it to none. -/
theorem insertion_replaces_registered_map_witness :
    State.init.WF ∧
    (unseenProtocolCalls.run sampleEnv [0, 1, 0, 0, 0, 0, 0, 0]).threads[1]? =
      some (Thread.mk "rest" "b" Pc.insert 0) ∧
    (Thread.mk "rest" "b" Pc.insert 0).pc = Pc.insert ∧
    (unseenProtocolCalls.run sampleEnv [0, 1, 0, 0, 0, 0, 0, 0]).st.lookup "rest" "a" =
      some (ProtocolClient.ref 4) ∧
    ∀ s', (unseenProtocolCalls.run sampleEnv ([0, 1, 0, 0, 0, 0, 0, 0] ++ [1])).st.lookup
      "rest" s' = none :=
  ⟨WF_init, rfl, rfl, by decide,
    (insertion_replaces_registered_map sampleEnv unseenProtocolCalls WF_init
      [0, 1, 0, 0, 0, 0, 0, 0] 1 (Thread.mk "rest" "b" Pc.insert 0) rfl rfl).1⟩

end Chassis
